import Mathlib

/-!
# cloudcmd: `lib/client/files.js`, the template and JSON loader

A shallow embedding of `FilesProto` (`Files.get`, `Files.set` and the private
functions `getModule`, `getPath`, `showError`, `getSystemFile`, `getConfig`,
`setConfig`) together with the promise mechanics the code relies on.

Conventions of the embedding.

* Strings are Lean `String`s; regular expressions are matched on the list of
  characters `String.data`.
* The three pattern constants only contain literal characters and the
  alternation bar, so `new RegExp(pattern)` is an ordered list of literal
  alternatives and `name.match(regExp)` is a leftmost search for the first
  alternative that matches.
* The closure state of `FilesProto` (`Promises`, `Data`) and the observable
  calls to the collaborators (`DOM.load.ajax`, `RESTful.Config.read`,
  `Storage.setAllowed`, the callbacks of the callers) are fields of `State`.
* `Util.getType` is not part of the sources at hand: `get` is the branch for
  a `name` of type string and `getArray` the branch for a list of strings.
* `Util.checkArgs` is not part of the sources at hand either; the calls of it
  in `get`, `set` and `convertPath` are kept, with the check modelled as
  throwing `<name> coud not be empty!` for the first listed argument that is
  missing or falsy (the empty name, falsy `data`, the empty path).
* `Util.exec.parallel`, which the array branch hands its functions to, is not
  part of the sources at hand either; its start and its join are modelled
  from the specification.
* Callbacks are identified by a number and their invocations are recorded;
  callbacks and collaborators return normally and do not call back into
  `Files` while they run.
* Promise jobs are run one at a time by the event `Event.job`, in queue
  order, at any moment between two other events (the host runs them before
  the next transport answer; every such schedule is among the ones modelled).

The namespace `Mellow` holds `convertPath` of `lib/server/mellow.js`.
-/

namespace Files

/-! ## Regular expressions built from literal alternatives -/

/-- Split a pattern at every alternation bar. -/
def splitAlternatives : List Char → List (List Char)
  | [] => [[]]
  | c :: cs =>
    match splitAlternatives cs with
    | [] => [[c]]
    | a :: rest => if c = '|' then [] :: a :: rest else (c :: a) :: rest

/-- The alternatives of `new RegExp(pattern)`, in source order. -/
def alternatives (pattern : String) : List (List Char) :=
  splitAlternatives pattern.data

/-- The first alternative that matches at the start of `str`. -/
def matchHere (alts : List (List Char)) (str : List Char) : Option (List Char) :=
  alts.find? (fun a => a.isPrefixOf str)

/-- Leftmost match of the alternatives in `str` (the regular expression is not
anchored, so every start position is tried, from left to right). -/
def search (alts : List (List Char)) : List Char → Option (List Char)
  | [] => matchHere alts []
  | c :: cs =>
    match matchHere alts (c :: cs) with
    | some m => some m
    | none => search alts cs

/-- The value of `name.match(new RegExp(pattern))`: `some m` is the match array
(whose element 0 is `m`), `none` is `null`. The code only tests the result
for truthiness, and a match array is truthy. -/
def regExpMatch (pattern : String) (name : String) : Option (List Char) :=
  search (alternatives pattern) name.data

/-! ## Constants of `FilesProto` -/

def FILES_JSON : String := "config|modules|ext"
def FILES_HTML : String := "file|path|link|pathLink|media"
def FILES_HTML_ROOT : String := "view/media-tmpl|config-tmpl"
def DIR_HTML : String := "/html/"
def DIR_HTML_FS : String := DIR_HTML ++ "fs/"
def DIR_JSON : String := "/json/"

/-! ## JavaScript values -/

/-- The values that flow through the loader: payloads, errors and the
arguments of callbacks. Of an object only the property the code reads
(`localStorage`) is kept; `id` stands for the rest of its content. An object
without that property has `localStorage = undefined`. -/
inductive Value where
  | undefined
  | null
  | bool (b : Bool)
  | num (n : Int)
  | str (s : String)
  | obj (id : Nat) (localStorage : Value)
  deriving DecidableEq, Repr

/-- JavaScript truthiness, as tested by `!Data[url]` and `!Data.config`. -/
def Value.truthy : Value → Bool
  | .undefined => false
  | .null => false
  | .bool b => b
  | .num n => n != 0
  | .str s => s != ""
  | .obj _ _ => true

/-- The property read `data.localStorage`: `none` is the `TypeError` thrown on
`undefined` and `null`; the other primitives have no such property. -/
def Value.getLocalStorage : Value → Option Value
  | .undefined => none
  | .null => none
  | .obj _ ls => some ls
  | _ => some .undefined

/-! ## Tables (plain objects used as maps) -/

/-- The value of `table[key]`, `none` when the property is absent. -/
def read {α : Type} : List (String × α) → String → Option α
  | [], _ => none
  | (k, v) :: rest, key => if k = key then some v else read rest key

/-- The assignment `table[key] = value`. -/
def write {α : Type} : List (String × α) → String → α → List (String × α)
  | [], key, value => [(key, value)]
  | (k, v) :: rest, key, value =>
    if k = key then (k, value) :: rest else (k, v) :: write rest key value

/-! ## Promises -/

/-- How a promise was settled. -/
inductive Settlement where
  | fulfilled (value : Value)
  | rejected (reason : Value)
  deriving DecidableEq, Repr

/-- The handler pairs that the code passes to `then`: the pair of
`getSystemFile(url, callback)` and the single handler of
`getConfig(callback)`. -/
inductive Reaction where
  | systemFile (url : String) (callback : Nat)
  | config (callback : Nat)
  deriving DecidableEq, Repr

/-- A promise: `settled = none` while pending, together with the handlers that
were attached while it was pending. -/
structure PromiseState where
  settled : Option Settlement
  reactions : List Reaction
  deriving DecidableEq, Repr

/-- A queued promise job: a handler pair and the settlement it is run with. -/
structure Job where
  reaction : Reaction
  settlement : Settlement
  deriving DecidableEq, Repr

/-- The closure state of `FilesProto` and the record of every call that
leaves it. -/
structure State where
  Promises : List (String × PromiseState)
  Data : List (String × Value)
  jobs : List Job
  ajaxCalls : List String
  configReads : Nat
  setAllowedCalls : List Value
  callbackCalls : List (Nat × List Value)
  deriving DecidableEq, Repr

/-- The state right after `new FilesProto(Util, DOM)`. -/
def State.init : State :=
  { Promises := [], Data := [], jobs := [], ajaxCalls := [], configReads := 0,
    setAllowedCalls := [], callbackCalls := [] }

/-- What a call can throw: the `Error` built by `showError`, with its message,
the `TypeError` of a property read on `undefined` or `null`, or the `Error`
of the argument check `Util.checkArgs` for the argument listed as `name`
(its message is that entry followed by ` coud not be empty!`, so
`name coud not be empty!` for the entry `'name'`). -/
inductive Thrown where
  | error (message : String)
  | typeError
  | empty (name : Value)
  deriving DecidableEq, Repr

/-- The result of a synchronous call: the state it leaves and what it threw,
if anything. -/
structure Outcome where
  state : State
  thrown : Option Thrown
  deriving DecidableEq, Repr

/-- The method `promise.then(...)` on `Promises[key]`: the handlers wait while
the promise is pending and are queued as a job once it is settled. -/
def attach (key : String) (reaction : Reaction) (s : State) : State :=
  match read s.Promises key with
  | none => s
  | some p =>
    match p.settled with
    | none =>
      { s with Promises := write s.Promises key { p with reactions := p.reactions ++ [reaction] } }
    | some o => { s with jobs := s.jobs ++ [{ reaction := reaction, settlement := o }] }

/-- The functions `resolve` and `reject` of `Promises[key]`: the first call
settles the promise and queues a job for every waiting handler, in the
order of attachment; later calls do nothing. -/
def settle (key : String) (o : Settlement) (s : State) : State :=
  match read s.Promises key with
  | none => s
  | some p =>
    match p.settled with
    | some _ => s
    | none =>
      { s with
        Promises := write s.Promises key { settled := some o, reactions := [] },
        jobs := s.jobs ++ p.reactions.map (fun r => { reaction := r, settlement := o }) }

/-! ## The functions of `FilesProto` -/

/-- Modelled from the spec: `Util.rmStr` is not part of the sources at hand;
the specification describes `Util.rmStr(name, '-tmpl')` as
`stripSuffix(name, "-tmpl")`, "strip trailing `-tmpl`": a trailing `substr`
is removed, any other string is returned as it is. -/
def rmStr (str substr : String) : String :=
  if substr.data.isSuffixOf str.data then
    String.mk (str.data.take (str.data.length - substr.data.length))
  else str

/-- The message of the error that `showError(name)` throws. -/
def showError (name : String) : Thrown :=
  Thrown.error ("Wrong file name: " ++ name)

/-- The function `getPath(name, isHTML, isJSON)`; `none` is the `undefined` that is
returned when neither flag is truthy. -/
def getPath (name : String) (isHTML isJSON : Option (List Char)) : Option String :=
  let isRoot := regExpMatch FILES_HTML_ROOT name
  if isHTML.isSome then
    let path := if isRoot.isSome then DIR_HTML ++ rmStr name "-tmpl" else DIR_HTML_FS ++ name
    some (path ++ ".html")
  else if isJSON.isSome then
    some (DIR_JSON ++ name ++ ".json")
  else
    none

/-- A path used as a property key and as the `url` of a request (`undefined`
is coerced to the key `"undefined"`). -/
def pathKey : Option String → String
  | some path => path
  | none => "undefined"

/-- The function `getSystemFile(url, callback)`: when `Promises[url]` is empty a
promise is created, whose executor calls `DOM.load.ajax` at once; then the
two handlers are attached to `Promises[url]`. -/
def getSystemFile (url : String) (callback : Nat) (s : State) : State :=
  let s1 :=
    match read s.Promises url with
    | some _ => s
    | none =>
      { s with
        Promises := write s.Promises url { settled := none, reactions := [] },
        ajaxCalls := s.ajaxCalls ++ [url] }
  attach url (Reaction.systemFile url callback) s1

/-- The function `getConfig(callback)`: when `Promises.config` is empty a promise is
created, whose executor calls `RESTful.Config.read` at once; then the handler
is attached to `Promises.config`. -/
def getConfig (callback : Nat) (s : State) : State :=
  let s1 :=
    match read s.Promises "config" with
    | some _ => s
    | none =>
      { s with
        Promises := write s.Promises "config" { settled := none, reactions := [] },
        configReads := s.configReads + 1 }
  attach "config" (Reaction.config callback) s1

/-- The function `setConfig(config)`: reads `config.localStorage` and hands it to
`Storage.setAllowed`. -/
def setConfig (config : Value) (s : State) : Outcome :=
  match config.getLocalStorage with
  | none => { state := s, thrown := some Thrown.typeError }
  | some isStorage =>
    { state := { s with setAllowedCalls := s.setAllowedCalls ++ [isStorage] }, thrown := none }

/-- The function `getModule(name, callback)`. -/
def getModule (name : String) (callback : Nat) (s : State) : Outcome :=
  let isHTML := regExpMatch (FILES_HTML ++ FILES_HTML_ROOT) name
  let isJSON := regExpMatch FILES_JSON name
  if isHTML.isNone && isJSON.isNone then
    { state := s, thrown := some (showError name) }
  else if name = "config" then
    { state := getConfig callback s, thrown := none }
  else
    { state := getSystemFile (pathKey (getPath name isHTML isJSON)) callback s, thrown := none }

/-- Modelled from the spec: `Util.checkArgs(arguments, names)` is not part of the
sources at hand, and the specification is silent about it. It is modelled
after its call sites and its error: the arguments listed in `names` are
checked in order, and the first one that is missing or falsy makes the call
throw the `Error` `<name> coud not be empty!`, `<name>` being the entry of
`names` at that position. `truthy` lists the truthiness of the arguments
that were passed; `none` means that the check passes. -/
def checkArgs : List Bool → List Value → Option Thrown
  | _, [] => none
  | [], name :: _ => some (Thrown.empty name)
  | t :: truthy, name :: names =>
    if t then checkArgs truthy names else some (Thrown.empty name)

/-- The method `Files.get(name, callback)` for a `name` of type string:
`Util.checkArgs(arguments, ['name', 'callback'])`, then `getModule`. The
callback is a function, which is truthy. -/
def get (name : String) (callback : Nat) (s : State) : Outcome :=
  match checkArgs [(Value.str name).truthy, true]
      [Value.str "name", Value.str "callback"] with
  | some error => { state := s, thrown := some error }
  | none => getModule name callback s

/-- The method `Files.set(name, data, callback)`: the pattern is matched, then
`Util.checkArgs(arguments, [name, data])` runs (the listed names are the
values of `name` and `data`), then the name is judged. -/
def set (name : String) (data : Value) (callback : Nat) (s : State) : Outcome :=
  let strFiles := FILES_JSON ++ FILES_HTML ++ FILES_HTML_ROOT
  let isFile := regExpMatch strFiles name
  match checkArgs [(Value.str name).truthy, data.truthy] [Value.str name, data] with
  | some error => { state := s, thrown := some error }
  | none =>
    if isFile.isNone then
      { state := s, thrown := some (showError name) }
    else
      let s1 :=
        { s with
          Data := write s.Data name data,
          callbackCalls := s.callbackCalls ++ [(callback, [Value.null])] }
      if name = "config" then setConfig data s1 else { state := s1, thrown := none }

/-- The truthiness of `table[key]` (an absent property reads as `undefined`). -/
def holds (table : List (String × Value)) (key : String) : Bool :=
  match read table key with
  | some v => v.truthy
  | none => false

/-- Run one promise job: the body of the handler that `getSystemFile` or
`getConfig` attached, applied to the settlement of its promise. A handler
that throws leaves the state as it was at the throw. -/
def runJob (j : Job) (s : State) : State :=
  match j.reaction, j.settlement with
  | Reaction.systemFile url callback, Settlement.fulfilled data =>
    let s1 := if holds s.Data url then s else { s with Data := write s.Data url data }
    { s1 with callbackCalls := s1.callbackCalls ++ [(callback, [Value.null, data])] }
  | Reaction.systemFile _ callback, Settlement.rejected error =>
    { s with callbackCalls := s.callbackCalls ++ [(callback, [error])] }
  | Reaction.config callback, Settlement.fulfilled data =>
    if holds s.Data "config" then
      { s with callbackCalls := s.callbackCalls ++ [(callback, [Value.null, data])] }
    else
      let s1 := { s with Data := write s.Data "config" data }
      match data.getLocalStorage with
      | none => s1
      | some isStorage =>
        { s1 with
          setAllowedCalls := s1.setAllowedCalls ++ [isStorage],
          callbackCalls := s1.callbackCalls ++ [(callback, [Value.null, data])] }
  | Reaction.config _, Settlement.rejected _ => s

/-! ## Executions -/

/-- What can happen to a `Files` object: a caller calls `get` or `set`, the
transport answers a request through `success` or `error`, the configuration
collaborator answers through its callback, or the next promise job runs. -/
inductive Event where
  | get (name : String) (callback : Nat)
  | set (name : String) (data : Value) (callback : Nat)
  | ajaxSuccess (url : String) (data : Value)
  | ajaxError (url : String) (error : Value)
  | configRead (data : Value)
  | job
  deriving DecidableEq, Repr

/-- One step. The transport can only answer a request that was issued (it
holds `resolve` and `reject` of no other promise), and likewise the
configuration collaborator. -/
def step (s : State) : Event → State
  | Event.get name callback => (get name callback s).state
  | Event.set name data callback => (set name data callback s).state
  | Event.ajaxSuccess url data =>
    if url ∈ s.ajaxCalls then settle url (Settlement.fulfilled data) s else s
  | Event.ajaxError url error =>
    if url ∈ s.ajaxCalls then settle url (Settlement.rejected error) s else s
  | Event.configRead data =>
    if 0 < s.configReads then settle "config" (Settlement.fulfilled data) s else s
  | Event.job =>
    match s.jobs with
    | [] => s
    | j :: rest => runJob j { s with jobs := rest }

/-- Run a sequence of events. -/
def run (s : State) (events : List Event) : State :=
  events.foldl step s

/-- Run every queued promise job (handlers queue no further job). -/
def drain (s : State) : State :=
  s.jobs.foldl (fun t j => runJob j t) { s with jobs := [] }

/-- The states a `Files` object can be in. -/
def Reachable (s : State) : Prop :=
  ∃ events : List Event, run State.init events = s

/-! ## Vocabulary of the statements -/

/-- The test `isHTML` of `getModule`, as a truth value. -/
def matchesHTML (name : String) : Bool :=
  (regExpMatch (FILES_HTML ++ FILES_HTML_ROOT) name).isSome

/-- The test `isJSON` of `getModule`, as a truth value. -/
def matchesJSON (name : String) : Bool :=
  (regExpMatch FILES_JSON name).isSome

/-- The test `isRoot` of `getPath`, as a truth value. -/
def matchesRoot (name : String) : Bool :=
  (regExpMatch FILES_HTML_ROOT name).isSome

/-- The names that `getModule` lets through: `isHTML || isJSON`. -/
def recognisedByGet (name : String) : Bool :=
  matchesHTML name || matchesJSON name

/-- The names that `set` lets through: `isFile`. -/
def recognisedBySet (name : String) : Bool :=
  (regExpMatch (FILES_JSON ++ FILES_HTML ++ FILES_HTML_ROOT) name).isSome

/-- The path that `getModule` hands to `getSystemFile` for `name`. -/
def locator (name : String) : String :=
  pathKey (getPath name (regExpMatch (FILES_HTML ++ FILES_HTML_ROOT) name)
    (regExpMatch FILES_JSON name))

/-- The ten resource names that the specification lists. -/
def listedNames : List String :=
  ["config", "modules", "ext", "file", "path", "link", "pathLink", "media",
   "media-tmpl", "config-tmpl"]

/-- Whether `Promises[key]` is set. -/
def hasPromise (s : State) (key : String) : Bool :=
  (read s.Promises key).isSome

/-- How the promise stored under `key` is settled, if it exists and is settled. -/
def settlementOf (s : State) (key : String) : Option Settlement :=
  match read s.Promises key with
  | some p => p.settled
  | none => none

/-- The bookkeeping behind deduplication: no path was requested twice, every
requested path has its promise in `Promises`, and `Promises` holds nothing
but the promises of requested paths and of the configuration. -/
def TransportInv (s : State) : Prop :=
  s.ajaxCalls.Nodup ∧
  (∀ url ∈ s.ajaxCalls, hasPromise s url = true) ∧
  (∀ key, hasPromise s key = true → key ∈ s.ajaxCalls ∨ key = "config")

/-- The bookkeeping behind the fan-out: a queued job of `getSystemFile` carries
the settlement of the promise stored under its path, and the handlers that
wait on the promise stored under a key were attached for that key. -/
def JobInv (s : State) : Prop :=
  (∀ j ∈ s.jobs, ∀ url callback, j.reaction = Reaction.systemFile url callback →
    settlementOf s url = some j.settlement) ∧
  (∀ key p, read s.Promises key = some p →
    ∀ url callback, Reaction.systemFile url callback ∈ p.reactions → url = key)

/-- The bookkeeping of the configuration channel: the configuration collaborator
was asked once if `Promises.config` is set, and never otherwise. -/
def ConfigInv (s : State) : Prop :=
  s.configReads = if hasPromise s "config" = true then 1 else 0

/-- The key of `Promises` under which the code attaches a handler pair: the
path for `getSystemFile`, `config` for `getConfig`. -/
def Reaction.key : Reaction → String
  | Reaction.systemFile url _ => url
  | Reaction.config _ => "config"

/-- The bookkeeping behind every handler: a queued job carries the settlement of
the promise its handlers were attached to, and the handlers that wait on the
promise stored under a key were attached for that key. -/
def QueueInv (s : State) : Prop :=
  (∀ j ∈ s.jobs, settlementOf s j.reaction.key = some j.settlement) ∧
  (∀ key p, read s.Promises key = some p → ∀ r ∈ p.reactions, r.key = key)

/-- Where a falsy entry of `Data` comes from: it was stored by a handler, from
the payload its promise was fulfilled with (`set` only stores truthy data). -/
def DataInv (s : State) : Prop :=
  ∀ key v, read s.Data key = some v → v.truthy = false →
    settlementOf s key = some (Settlement.fulfilled v)

/-- The schedule of the configuration read that the statements follow: the
callers `waiting` call `get('config', cb)`, the collaborator answers with
`payload`, the queued jobs run, the callers `later` call `get('config', cb)`,
and the queued jobs run again. -/
def configScenario (s : State) (waiting later : List Nat) (payload : Value) : State :=
  drain (run (drain (run s (waiting.map (Event.get "config") ++
    [Event.configRead payload]))) (later.map (Event.get "config")))

/-! ## The batch branch of `Files.get` -/

/-- The array `funcs` that `Files.get` builds for a `name` of type array: one
function per element, in input order, each calling `Files.get(name, callback)`
with its element. -/
def funcs (names : List String) : List (Nat → State → Outcome) :=
  names.map (fun name => fun callback => get name callback)

/-- What a unit reported through its callback: `callback(null, data)` or
`callback(error)`. -/
inductive UnitResult where
  | ok (data : Value)
  | failed (error : Value)
  deriving DecidableEq, Repr

/-- What the join reports to the callback of the caller: the results of all
units, or an error. -/
inductive Report where
  | success (results : List Value)
  | failure (error : Value)
  deriving DecidableEq, Repr

/-- Modelled from the spec: `Util.exec.parallel` is not part of the sources at
hand. The specification has it "run all units": every function of `funcs` is
called, in input order, with a callback of its own (`unitCallbacks` lists
them in input order); an exception of a unit leaves the call. -/
def parallel : List (Nat → State → Outcome) → List Nat → State → Outcome
  | f :: fs, u :: us, s =>
    match (f u s).thrown with
    | some t => { state := (f u s).state, thrown := some t }
    | none => parallel fs us (f u s).state
  | _, _, s => { state := s, thrown := none }

/-- The branch `case 'array'` of `Files.get`: `Util.exec.parallel(funcs, callback)`
on the functions built from `name` (the argument check before it passes, an
array being truthy). -/
def getArray (names : List String) (unitCallbacks : List Nat) (s : State) : Outcome :=
  parallel (funcs names) unitCallbacks s

/-- Modelled from the spec: how `Util.exec.parallel` reads the arguments a unit
passes to its callback: a truthy first argument is the error of a failed
unit, otherwise the second argument is the result. -/
def unitResult : List Value → UnitResult
  | [] => UnitResult.ok Value.undefined
  | error :: rest =>
    if error.truthy then UnitResult.failed error
    else UnitResult.ok (rest.headD Value.undefined)

/-- Modelled from the spec: the join of `Util.exec.parallel` keeps one slot per
unit; when unit `i` completes, its result is stored in slot `i` (a unit
settles once: a filled slot is left alone). -/
def settleSlot (slots : List (Option UnitResult)) (i : Nat) (r : UnitResult) :
    List (Option UnitResult) :=
  match slots[i]? with
  | some none => slots.set i (some r)
  | _ => slots

/-- Modelled from the spec: the slots of the join after the recorded callback
calls `log`, processed in the order in which they happened; a call belongs
to the unit whose callback it names, calls of other callbacks are skipped. -/
def joinLog (unitCallbacks : List Nat) (log : List (Nat × List Value)) :
    List (Option UnitResult) :=
  log.foldl
    (fun slots e => settleSlot slots (unitCallbacks.indexOf e.1) (unitResult e.2))
    (List.replicate unitCallbacks.length none)

/-- Modelled from the spec: "join when all have settled. Reports success only if
every unit succeeds; the callback receives the ordered sequence of results
aligned to the input order. If any unit fails, the aggregate fails" with
the first error in the order of the input list. `none`: not all units have
settled, nothing is reported yet. -/
def collect : List (Option UnitResult) → Option Report
  | [] => some (Report.success [])
  | none :: _ => none
  | some r :: rest =>
    match collect rest with
    | none => none
    | some tail =>
      match r, tail with
      | UnitResult.failed e, _ => some (Report.failure e)
      | UnitResult.ok _, Report.failure e => some (Report.failure e)
      | UnitResult.ok v, Report.success vs => some (Report.success (v :: vs))

/-- Modelled from the spec: what `Util.exec.parallel` has reported to the callback
of the caller after the recorded callback calls `log`. -/
def batchReport (unitCallbacks : List Nat) (log : List (Nat × List Value)) :
    Option Report :=
  collect (joinLog unitCallbacks log)

end Files

namespace Mellow

/-! ## `lib/server/mellow.js`: `convertPath`

A JavaScript string is taken as the list of its UTF-16 code units, since
`path[1]` and `path.split('')` work on code units. -/

/-- The UTF-16 code units of a character. -/
def utf16Char (c : Char) : List Nat :=
  if c.toNat < 65536 then [c.toNat]
  else [55296 + (c.toNat - 65536) / 1024, 56320 + (c.toNat - 65536) % 1024]

/-- The JavaScript string (its code units) for a text. -/
def utf16 (text : String) : List Nat :=
  (text.data.map utf16Char).flatten

/-- What a call of `convertPath` ends with: the path it returns or the error it
throws. -/
inductive Result where
  | returned (path : List Nat)
  | threw (error : Files.Thrown)
  deriving DecidableEq, Repr

/-- The function `convertPath(path)`, with the two things it takes from its
environment as parameters: `isWin` (`process.platform === 'win32'`) and
`format.addSlashToEnd`, which is not part of the sources at hand. First
`Util.checkArgs(arguments, ['path'])` runs (the empty string is falsy). An
index past the end reads as `undefined`, which the concatenation turns into
the text `undefined`. -/
def convertPath (isWin : Bool) (addSlashToEnd : List Nat → List Nat) (path : List Nat) :
    Result :=
  match Files.checkArgs [!path.isEmpty] [Files.Value.str "path"] with
  | some error => Result.threw error
  | none =>
    if isWin && path != utf16 "/" then
      let volume :=
        match path[1]? with
        | some v => [v]
        | none => utf16 "undefined"
      let path1 := path.drop 2
      let path2 := volume ++ utf16 ":" ++ path1
      Result.returned (addSlashToEnd path2)
    else
      Result.returned path

end Mellow

namespace Files

/-! ## Regular expression matching is a substring test -/

theorem matchHere_eq_none (alts : List (List Char)) (str : List Char) :
    matchHere alts str = none ↔ ∀ a ∈ alts, ¬ a <+: str := by
  simp [matchHere]

theorem search_eq_none (alts : List (List Char)) (str : List Char) :
    search alts str = none ↔ ∀ a ∈ alts, ¬ a <:+: str := by
  induction str with
  | nil =>
    simp only [search, matchHere_eq_none, List.prefix_nil, List.infix_nil]
  | cons c cs ih =>
    simp only [search]
    cases hm : matchHere alts (c :: cs) with
    | some m =>
      obtain ⟨a, ha, hp⟩ : ∃ a ∈ alts, a <+: c :: cs := by
        by_contra hcon
        push_neg at hcon
        rw [(matchHere_eq_none alts (c :: cs)).2 hcon] at hm
        cases hm
      simp only [false_iff, reduceCtorEq]
      intro hall
      exact hall a ha hp.isInfix
    | none =>
      rw [matchHere_eq_none] at hm
      simp only [ih]
      constructor
      · intro h a ha hin
        rcases List.infix_cons_iff.1 hin with hp | hi
        · exact hm a ha hp
        · exact h a ha hi
      · intro h a ha hin
        exact h a ha (List.infix_cons_iff.2 (Or.inr hin))

theorem regExpMatch_isSome (pattern name : String) :
    (regExpMatch pattern name).isSome = true ↔
      ∃ a ∈ alternatives pattern, a <:+: name.data := by
  rw [← not_iff_not]
  simp only [Bool.not_eq_true, Option.not_isSome, Option.isNone_iff_eq_none, regExpMatch,
    search_eq_none]
  push_neg
  rfl

theorem alternatives_html :
    alternatives (FILES_HTML ++ FILES_HTML_ROOT) =
      ["file".data, "path".data, "link".data, "pathLink".data,
       "mediaview/media-tmpl".data, "config-tmpl".data] := by
  decide

theorem alternatives_json :
    alternatives FILES_JSON = ["config".data, "modules".data, "ext".data] := by
  decide

theorem alternatives_root :
    alternatives FILES_HTML_ROOT = ["view/media-tmpl".data, "config-tmpl".data] := by
  decide

theorem alternatives_set :
    alternatives (FILES_JSON ++ FILES_HTML ++ FILES_HTML_ROOT) =
      ["config".data, "modules".data, "extfile".data, "path".data, "link".data,
       "pathLink".data, "mediaview/media-tmpl".data, "config-tmpl".data] := by
  decide

/-! ## Classification by `getModule` and `set` -/

theorem matchesHTML_iff (name : String) :
    matchesHTML name = true ↔
      "file".data <:+: name.data ∨ "path".data <:+: name.data ∨
      "link".data <:+: name.data ∨ "pathLink".data <:+: name.data ∨
      "mediaview/media-tmpl".data <:+: name.data ∨ "config-tmpl".data <:+: name.data := by
  simp [matchesHTML, regExpMatch_isSome, alternatives_html]

theorem matchesJSON_iff (name : String) :
    matchesJSON name = true ↔
      "config".data <:+: name.data ∨ "modules".data <:+: name.data ∨
      "ext".data <:+: name.data := by
  simp [matchesJSON, regExpMatch_isSome, alternatives_json]

theorem matchesRoot_iff (name : String) :
    matchesRoot name = true ↔
      "view/media-tmpl".data <:+: name.data ∨ "config-tmpl".data <:+: name.data := by
  simp [matchesRoot, regExpMatch_isSome, alternatives_root]

theorem recognisedBySet_iff (name : String) :
    recognisedBySet name = true ↔
      "config".data <:+: name.data ∨ "modules".data <:+: name.data ∨
      "extfile".data <:+: name.data ∨ "path".data <:+: name.data ∨
      "link".data <:+: name.data ∨ "pathLink".data <:+: name.data ∨
      "mediaview/media-tmpl".data <:+: name.data ∨ "config-tmpl".data <:+: name.data := by
  simp [recognisedBySet, regExpMatch_isSome, alternatives_set]

theorem isSome_eq_false {α : Type} {o : Option α} (h : o.isSome = false) : o = none := by
  cases o with
  | none => rfl
  | some a => cases h

theorem truthy_str (name : String) (h : name ≠ "") : (Value.str name).truthy = true := by
  simp [Value.truthy, h]

theorem get_of_nonempty (name : String) (callback : Nat) (s : State) (h : name ≠ "") :
    get name callback s = getModule name callback s := by
  simp [get, checkArgs, truthy_str name h]

theorem get_of_empty (callback : Nat) (s : State) :
    get "" callback s = { state := s, thrown := some (Thrown.empty (Value.str "name")) } := by
  rfl

theorem recognisedByGet_ne_empty (name : String) (h : recognisedByGet name = true) :
    name ≠ "" := by
  rintro rfl
  revert h
  decide

theorem recognisedBySet_ne_empty (name : String) (h : recognisedBySet name = true) :
    name ≠ "" := by
  rintro rfl
  revert h
  decide

theorem set_of_checked (name : String) (data : Value) (callback : Nat) (s : State)
    (hn : name ≠ "") (hd : data.truthy = true) :
    set name data callback s =
      if (regExpMatch (FILES_JSON ++ FILES_HTML ++ FILES_HTML_ROOT) name).isNone then
        { state := s, thrown := some (showError name) }
      else if name = "config" then
        setConfig data
          { s with
            Data := write s.Data name data,
            callbackCalls := s.callbackCalls ++ [(callback, [Value.null])] }
      else
        { state :=
            { s with
              Data := write s.Data name data,
              callbackCalls := s.callbackCalls ++ [(callback, [Value.null])] },
          thrown := none } := by
  simp [set, checkArgs, truthy_str name hn, hd]

theorem set_of_falsy (name : String) (data : Value) (callback : Nat) (s : State)
    (hn : name ≠ "") (hd : data.truthy = false) :
    set name data callback s = { state := s, thrown := some (Thrown.empty data) } := by
  simp [set, checkArgs, truthy_str name hn, hd]

theorem set_of_empty (data : Value) (callback : Nat) (s : State) :
    set "" data callback s = { state := s, thrown := some (Thrown.empty (Value.str "")) } := by
  simp [set, checkArgs, Value.truthy]

theorem get_of_not_recognised (name : String) (callback : Nat) (s : State)
    (h : recognisedByGet name = false) (hne : name ≠ "") :
    get name callback s = { state := s, thrown := some (showError name) } := by
  simp only [recognisedByGet, matchesHTML, matchesJSON, Bool.or_eq_false_iff] at h
  have h1 := isSome_eq_false h.1
  have h2 := isSome_eq_false h.2
  rw [get_of_nonempty name callback s hne]
  simp [getModule, h1, h2]

theorem get_of_recognised (name : String) (callback : Nat) (s : State)
    (h : recognisedByGet name = true) (hne : name ≠ "config") :
    get name callback s =
      { state := getSystemFile (locator name) callback s, thrown := none } := by
  have h2 : ((regExpMatch (FILES_HTML ++ FILES_HTML_ROOT) name).isNone &&
      (regExpMatch FILES_JSON name).isNone) = false := by
    simp only [recognisedByGet, matchesHTML, matchesJSON] at h
    rw [← Bool.not_eq_true, Bool.and_eq_true]
    rintro ⟨h1, h3⟩
    simp [Option.isNone_iff_eq_none] at h1 h3
    simp [h1, h3] at h
  rw [get_of_nonempty name callback s (recognisedByGet_ne_empty name h)]
  simp [getModule, h2, hne, locator]

theorem set_of_not_recognised (name : String) (data : Value) (callback : Nat) (s : State)
    (h : recognisedBySet name = false) (hn : name ≠ "") (hd : data.truthy = true) :
    set name data callback s = { state := s, thrown := some (showError name) } := by
  have h1 := isSome_eq_false h
  rw [set_of_checked name data callback s hn hd]
  simp [h1]

theorem get_throw_keeps_state (name : String) (callback : Nat) (s : State)
    (h : recognisedByGet name = false) : (get name callback s).state = s := by
  by_cases hne : name = ""
  · subst hne
    rfl
  · rw [get_of_not_recognised name callback s h hne]

theorem set_throw_keeps_state (name : String) (data : Value) (callback : Nat) (s : State)
    (h : recognisedBySet name = false) : (set name data callback s).state = s := by
  by_cases hne : name = ""
  · subst hne
    rw [set_of_empty]
  · cases hd : data.truthy with
    | true => rw [set_of_not_recognised name data callback s h hne hd]
    | false => rw [set_of_falsy name data callback s hne hd]

theorem recognisedByGet_contains_listed (name : String) (h : recognisedByGet name = true) :
    ∃ n ∈ listedNames, n.data <:+: name.data := by
  simp only [recognisedByGet, Bool.or_eq_true, matchesHTML_iff, matchesJSON_iff] at h
  rcases h with (h | h | h | h | h | h) | (h | h | h)
  · exact ⟨"file", by decide, h⟩
  · exact ⟨"path", by decide, h⟩
  · exact ⟨"link", by decide, h⟩
  · exact ⟨"pathLink", by decide, h⟩
  · exact ⟨"media", by decide,
      List.IsInfix.trans (by decide : "media".data <:+: "mediaview/media-tmpl".data) h⟩
  · exact ⟨"config-tmpl", by decide, h⟩
  · exact ⟨"config", by decide, h⟩
  · exact ⟨"modules", by decide, h⟩
  · exact ⟨"ext", by decide, h⟩

/-- C1 (as the code has it): a non-empty name that contains none of the ten
listed names as a substring is rejected by `get`: the call throws
`Error('Wrong file name: ' + name)` and leaves the state as it was. (The
empty name does not get that far: the argument check throws before.) -/
theorem get_rejects_name_without_listed_substring (name : String) (callback : Nat)
    (s : State) (hne : name ≠ "") (h : ∀ n ∈ listedNames, ¬ n.data <:+: name.data) :
    get name callback s =
      { state := s, thrown := some (Thrown.error ("Wrong file name: " ++ name)) } := by
  have hrec : recognisedByGet name = false := by
    by_contra hcon
    rw [Bool.not_eq_false] at hcon
    obtain ⟨n, hn, hin⟩ := recognisedByGet_contains_listed name hcon
    exact h n hn hin
  exact get_of_not_recognised name callback s hrec hne

theorem get_rejects_name_without_listed_substring_witness :
    "bogus" ≠ "" ∧ (∀ n ∈ listedNames, ¬ n.data <:+: "bogus".data) ∧
    get "bogus" 0 State.init =
      { state := State.init, thrown := some (Thrown.error ("Wrong file name: " ++ "bogus")) } :=
  ⟨by decide, by decide,
    get_rejects_name_without_listed_substring "bogus" 0 State.init (by decide) (by decide)⟩

/-- C1 (as stated) fails: `bogus-path`, `xext` and `myconfig` are none of the ten
listed names, yet `get` accepts each of them, because the regular
expressions match substrings: no error is thrown and a request is issued. -/
theorem get_accepts_names_outside_the_list :
    "bogus-path" ∉ listedNames ∧ "xext" ∉ listedNames ∧ "myconfig" ∉ listedNames ∧
    get "bogus-path" 0 State.init =
      { state := getSystemFile "/html/fs/bogus-path.html" 0 State.init, thrown := none } ∧
    (get "bogus-path" 0 State.init).state.ajaxCalls = ["/html/fs/bogus-path.html"] ∧
    (get "xext" 0 State.init).thrown = none ∧
    (get "xext" 0 State.init).state.ajaxCalls = ["/json/xext.json"] ∧
    (get "myconfig" 0 State.init).thrown = none ∧
    (get "myconfig" 0 State.init).state.ajaxCalls = ["/json/myconfig.json"] := by
  decide

/-- C2 (as the code has it): when `get` or `set` does not recognise `name`, the
call throws and the state it leaves is the state it found: no callback call,
no request to the transport or to the configuration collaborator, no
`Storage.setAllowed`, no queued job, `Promises` and `Data` untouched. The
error is `Error('Wrong file name: ' + name)` when the arguments pass
`Util.checkArgs`, that is for a non-empty name and, in `set`, truthy data;
for the empty name `get` throws the error of the argument check. -/
theorem unrecognised_name_throws_and_changes_nothing (name : String) (data : Value)
    (callback : Nat) (s : State) :
    (recognisedByGet name = false →
      (get name callback s).state = s ∧ (get name callback s).thrown ≠ none ∧
      (name ≠ "" →
        get name callback s =
          { state := s, thrown := some (Thrown.error ("Wrong file name: " ++ name)) }) ∧
      (name = "" →
        get name callback s =
          { state := s, thrown := some (Thrown.empty (Value.str "name")) })) ∧
    (recognisedBySet name = false →
      (set name data callback s).state = s ∧ (set name data callback s).thrown ≠ none ∧
      (name ≠ "" → data.truthy = true →
        set name data callback s =
          { state := s, thrown := some (Thrown.error ("Wrong file name: " ++ name)) })) := by
  constructor
  · intro h
    refine ⟨get_throw_keeps_state name callback s h, ?_,
      fun hne => get_of_not_recognised name callback s h hne, ?_⟩
    · by_cases hne : name = ""
      · subst hne
        rw [get_of_empty]
        simp
      · rw [get_of_not_recognised name callback s h hne]
        simp
    · rintro rfl
      exact get_of_empty callback s
  · intro h
    refine ⟨set_throw_keeps_state name data callback s h, ?_,
      fun hne hd => set_of_not_recognised name data callback s h hne hd⟩
    by_cases hne : name = ""
    · subst hne
      rw [set_of_empty]
      simp
    · cases hd : data.truthy with
      | true =>
        rw [set_of_not_recognised name data callback s h hne hd]
        simp
      | false =>
        rw [set_of_falsy name data callback s hne hd]
        simp

theorem unrecognised_name_throws_and_changes_nothing_witness :
    recognisedByGet "bogus" = false ∧ recognisedBySet "bogus" = false ∧
    "bogus" ≠ "" ∧ (Value.num 1).truthy = true ∧
    get "bogus" 7 State.init =
      { state := State.init, thrown := some (Thrown.error ("Wrong file name: " ++ "bogus")) } ∧
    set "bogus" (Value.num 1) 7 State.init =
      { state := State.init, thrown := some (Thrown.error ("Wrong file name: " ++ "bogus")) } :=
  ⟨by decide, by decide, by decide, by decide,
    ((unrecognised_name_throws_and_changes_nothing "bogus" (Value.num 1) 7 State.init).1
      (by decide)).2.2.1 (by decide),
    ((unrecognised_name_throws_and_changes_nothing "bogus" (Value.num 1) 7 State.init).2
      (by decide)).2.2 (by decide) (by decide)⟩

/-- C2 (as stated) fails: `get` does not recognise the empty name, and `set` does
not recognise `bogus`, but `get('', cb)` and `set('bogus', 0, cb)` do not
raise the wrong-file-name error: `Util.checkArgs` runs before `showError`
and throws its own error (`name coud not be empty!` in `get`). -/
theorem unrecognised_name_can_raise_argument_error :
    recognisedByGet "" = false ∧
    get "" 0 State.init =
      { state := State.init, thrown := some (Thrown.empty (Value.str "name")) } ∧
    (get "" 0 State.init).thrown ≠ some (Thrown.error ("Wrong file name: " ++ "")) ∧
    recognisedBySet "bogus" = false ∧
    set "bogus" (Value.num 0) 0 State.init =
      { state := State.init, thrown := some (Thrown.empty (Value.num 0)) } ∧
    (set "bogus" (Value.num 0) 0 State.init).thrown ≠
      some (Thrown.error ("Wrong file name: " ++ "bogus")) := by
  decide

/-! ## Locators -/

theorem attach_ajaxCalls (key : String) (r : Reaction) (s : State) :
    (attach key r s).ajaxCalls = s.ajaxCalls := by
  unfold attach
  split
  · rfl
  · split <;> rfl

theorem getSystemFile_ajaxCalls (url : String) (callback : Nat) (s : State) :
    (getSystemFile url callback s).ajaxCalls =
      if (read s.Promises url).isSome then s.ajaxCalls else s.ajaxCalls ++ [url] := by
  unfold getSystemFile
  simp only [attach_ajaxCalls]
  cases read s.Promises url <;> simp

theorem getSystemFile_ajaxCalls_of_absent (url : String) (callback : Nat) (s : State)
    (h : read s.Promises url = none) :
    (getSystemFile url callback s).ajaxCalls = s.ajaxCalls ++ [url] := by
  simp [getSystemFile_ajaxCalls, h]

theorem matchesHTML_ne_config (name : String) (h : matchesHTML name = true) :
    name ≠ "config" := by
  rintro rfl
  revert h
  decide

theorem locator_root (name : String) (hHTML : matchesHTML name = true)
    (hRoot : matchesRoot name = true) :
    locator name = "/html/" ++ rmStr name "-tmpl" ++ ".html" := by
  simp only [matchesHTML, matchesRoot] at hHTML hRoot
  simp [locator, getPath, hHTML, hRoot, pathKey, DIR_HTML]

theorem locator_fs (name : String) (hHTML : matchesHTML name = true)
    (hRoot : matchesRoot name = false) :
    locator name = "/html/fs/" ++ name ++ ".html" := by
  simp only [matchesHTML, matchesRoot] at hHTML hRoot
  have h : DIR_HTML_FS = "/html/fs/" := by decide
  simp [locator, getPath, hHTML, hRoot, pathKey, h]

theorem locator_json (name : String) (hHTML : matchesHTML name = false)
    (hJSON : matchesJSON name = true) :
    locator name = "/json/" ++ name ++ ".json" := by
  simp only [matchesHTML, matchesJSON] at hHTML hJSON
  simp [locator, getPath, hHTML, hJSON, pathKey, DIR_JSON]

/-- C3 (as the code has it): a name that `getModule` accepts as HTML and that
`getPath` treats as a root variant is accepted, and the path handed on is
`'/html/' + (name without a trailing '-tmpl') + '.html'`; the transport is
asked for exactly that path when no promise is stored under it yet. For
`config-tmpl` this is `/html/config.html`. -/
theorem get_root_variant_locator (name : String) (callback : Nat) (s : State)
    (hHTML : matchesHTML name = true) (hRoot : matchesRoot name = true) :
    get name callback s =
      { state := getSystemFile ("/html/" ++ rmStr name "-tmpl" ++ ".html") callback s,
        thrown := none } ∧
    (read s.Promises ("/html/" ++ rmStr name "-tmpl" ++ ".html") = none →
      (get name callback s).state.ajaxCalls =
        s.ajaxCalls ++ ["/html/" ++ rmStr name "-tmpl" ++ ".html"]) := by
  have hget := get_of_recognised name callback s
    (by simp [recognisedByGet, hHTML]) (matchesHTML_ne_config name hHTML)
  rw [locator_root name hHTML hRoot] at hget
  refine ⟨hget, fun habs => ?_⟩
  rw [hget]
  exact getSystemFile_ajaxCalls_of_absent _ callback s habs

theorem get_root_variant_locator_witness :
    matchesHTML "config-tmpl" = true ∧ matchesRoot "config-tmpl" = true ∧
    (get "config-tmpl" 0 State.init).state.ajaxCalls = ["/html/config.html"] :=
  ⟨by decide, by decide,
    ((get_root_variant_locator "config-tmpl" 0 State.init (by decide) (by decide)).2
      rfl).trans (by decide)⟩

/-- C3 (as stated) fails: `get('media-tmpl', cb)` is not accepted. It throws
`Error('Wrong file name: media-tmpl')`, and no request, in particular none for
`/html/media.html`, is issued. -/
theorem get_media_tmpl_is_rejected :
    get "media-tmpl" 0 State.init =
      { state := State.init, thrown := some (Thrown.error "Wrong file name: media-tmpl") } ∧
    (get "media-tmpl" 0 State.init).state.ajaxCalls = [] := by
  decide

theorem get_of_fs (name : String) (callback : Nat) (s : State)
    (hHTML : matchesHTML name = true) (hRoot : matchesRoot name = false) :
    get name callback s =
      { state := getSystemFile ("/html/fs/" ++ name ++ ".html") callback s,
        thrown := none } := by
  have hget := get_of_recognised name callback s
    (by simp [recognisedByGet, hHTML]) (matchesHTML_ne_config name hHTML)
  rw [locator_fs name hHTML hRoot] at hget
  exact hget

/-- C4: a name that `getModule` accepts as HTML and that `getPath` does not
treat as a root variant is accepted, and the path handed on is
`'/html/fs/' + name + '.html'`; the transport is asked for exactly that path
when no promise is stored under it yet. -/
theorem get_fs_locator (name : String) (callback : Nat) (s : State)
    (hHTML : matchesHTML name = true) (hRoot : matchesRoot name = false) :
    get name callback s =
      { state := getSystemFile ("/html/fs/" ++ name ++ ".html") callback s,
        thrown := none } ∧
    (read s.Promises ("/html/fs/" ++ name ++ ".html") = none →
      (get name callback s).state.ajaxCalls =
        s.ajaxCalls ++ ["/html/fs/" ++ name ++ ".html"]) := by
  have hget := get_of_fs name callback s hHTML hRoot
  refine ⟨hget, fun habs => ?_⟩
  rw [hget]
  exact getSystemFile_ajaxCalls_of_absent _ callback s habs

theorem get_fs_locator_witness :
    matchesHTML "file" = true ∧ matchesRoot "file" = false ∧
    (get "file" 0 State.init).state.ajaxCalls = ["/html/fs/file.html"] :=
  ⟨by decide, by decide,
    (get_fs_locator "file" 0 State.init (by decide) (by decide)).2 rfl⟩

/-- C5 at the failing input: `get('media', cb)` throws
`Error('Wrong file name: media')` in every state and changes nothing, while
the four other names `file`, `path`, `link` and `pathLink` are accepted and
handed on as `'/html/fs/' + name + '.html'`. -/
theorem get_media_is_rejected (callback : Nat) (s : State) :
    get "media" callback s =
      { state := s, thrown := some (Thrown.error "Wrong file name: media") } ∧
    (∀ name ∈ ["file", "path", "link", "pathLink"],
      get name callback s =
        { state := getSystemFile ("/html/fs/" ++ name ++ ".html") callback s,
          thrown := none }) := by
  refine ⟨get_of_not_recognised "media" callback s (by decide) (by decide), ?_⟩
  intro name hname
  simp only [List.mem_cons, List.mem_singleton, List.not_mem_nil, or_false] at hname
  rcases hname with rfl | rfl | rfl | rfl
  · exact get_of_fs _ callback s (by decide) (by decide)
  · exact get_of_fs _ callback s (by decide) (by decide)
  · exact get_of_fs _ callback s (by decide) (by decide)
  · exact get_of_fs _ callback s (by decide) (by decide)

/-- C6: for `modules`, for `ext`, and for every name other than `config` that
matches the JSON pattern and not the HTML pattern, the path handed on is
`'/json/' + name + '.json'`; the transport is asked for exactly that path
when no promise is stored under it yet. -/
theorem get_json_locator (name : String) (callback : Nat) (s : State)
    (h : name = "modules" ∨ name = "ext" ∨
      (name ≠ "config" ∧ matchesJSON name = true ∧ matchesHTML name = false)) :
    get name callback s =
      { state := getSystemFile ("/json/" ++ name ++ ".json") callback s,
        thrown := none } ∧
    (read s.Promises ("/json/" ++ name ++ ".json") = none →
      (get name callback s).state.ajaxCalls =
        s.ajaxCalls ++ ["/json/" ++ name ++ ".json"]) := by
  have h3 : name ≠ "config" ∧ matchesJSON name = true ∧ matchesHTML name = false := by
    rcases h with rfl | rfl | h
    · decide
    · decide
    · exact h
  obtain ⟨hne, hJSON, hHTML⟩ := h3
  have hget := get_of_recognised name callback s (by simp [recognisedByGet, hJSON]) hne
  rw [locator_json name hHTML hJSON] at hget
  refine ⟨hget, fun habs => ?_⟩
  rw [hget]
  exact getSystemFile_ajaxCalls_of_absent _ callback s habs

theorem get_json_locator_witness :
    ("modules" = "modules" ∨ "modules" = "ext" ∨
      ("modules" ≠ "config" ∧ matchesJSON "modules" = true ∧
        matchesHTML "modules" = false)) ∧
    (get "modules" 0 State.init).state.ajaxCalls = ["/json/modules.json"] :=
  ⟨by decide, (get_json_locator "modules" 0 State.init (by decide)).2 rfl⟩

/-! ## `set` against `get` -/

theorem recognisedByGet_of_recognisedBySet (name : String)
    (h : recognisedBySet name = true) : recognisedByGet name = true := by
  rw [recognisedBySet_iff] at h
  simp only [recognisedByGet, Bool.or_eq_true, matchesHTML_iff, matchesJSON_iff]
  rcases h with h | h | h | h | h | h | h | h
  · exact Or.inr (Or.inl h)
  · exact Or.inr (Or.inr (Or.inl h))
  · exact Or.inr (Or.inr (Or.inr
      (List.IsInfix.trans (by decide : "ext".data <:+: "extfile".data) h)))
  · exact Or.inl (Or.inr (Or.inl h))
  · exact Or.inl (Or.inr (Or.inr (Or.inl h)))
  · exact Or.inl (Or.inr (Or.inr (Or.inr (Or.inl h))))
  · exact Or.inl (Or.inr (Or.inr (Or.inr (Or.inr (Or.inl h)))))
  · exact Or.inl (Or.inr (Or.inr (Or.inr (Or.inr (Or.inr h)))))

theorem set_of_unrecognised_name (name : String) (data : Value) (callback : Nat)
    (s : State) (h : recognisedBySet name = false) (hn : name ≠ "") :
    set name data callback s =
      { state := s,
        thrown := some (if data.truthy = true then Thrown.error ("Wrong file name: " ++ name)
          else Thrown.empty data) } := by
  cases hd : data.truthy with
  | true =>
    rw [set_of_not_recognised name data callback s h hn hd]
    rfl
  | false =>
    rw [set_of_falsy name data callback s hn hd]
    rfl

/-- C10 at the failing inputs: `set('ext', data, cb)` and `set('file', data, cb)`
throw and change nothing, in every state and for every payload (the
wrong-file-name error for truthy data, the error of the argument check for
falsy data), although `get('ext', cb)` and `get('file', cb)` are accepted. -/
theorem set_rejects_names_that_get_accepts (data : Value) (callback : Nat) (s : State) :
    set "ext" data callback s =
      { state := s,
        thrown := some (if data.truthy = true then Thrown.error "Wrong file name: ext"
          else Thrown.empty data) } ∧
    (get "ext" callback s).thrown = none ∧
    set "file" data callback s =
      { state := s,
        thrown := some (if data.truthy = true then Thrown.error "Wrong file name: file"
          else Thrown.empty data) } ∧
    (get "file" callback s).thrown = none ∧
    set "ext" (Value.num 1) callback s =
      { state := s, thrown := some (Thrown.error "Wrong file name: ext") } := by
  refine ⟨set_of_unrecognised_name "ext" data callback s (by decide) (by decide), ?_,
    set_of_unrecognised_name "file" data callback s (by decide) (by decide), ?_,
    set_of_not_recognised "ext" (Value.num 1) callback s (by decide) (by decide) (by decide)⟩
  · rw [get_of_recognised "ext" callback s (by decide) (by decide)]
  · rw [get_of_recognised "file" callback s (by decide) (by decide)]

/-! ## Tables and promises: basic facts -/

theorem read_write_same {α : Type} (t : List (String × α)) (k : String) (v : α) :
    read (write t k v) k = some v := by
  induction t with
  | nil => simp [write, read]
  | cons e rest ih =>
    obtain ⟨k0, v0⟩ := e
    by_cases h : k0 = k
    · simp [write, read, h]
    · simp [write, read, h, ih]

theorem read_write_of_ne {α : Type} (t : List (String × α)) (k k1 : String) (v : α)
    (hne : k1 ≠ k) : read (write t k v) k1 = read t k1 := by
  induction t with
  | nil => simp [write, read, hne.symm]
  | cons e rest ih =>
    obtain ⟨k0, v0⟩ := e
    by_cases h : k0 = k
    · subst h
      simp [write, read, hne.symm]
    · by_cases h1 : k0 = k1
      · subst h1
        simp [write, read, h]
      · simp [write, read, h, h1, ih]

theorem hasPromise_write (s : State) (k k1 : String) (p : PromiseState)
    (t : State) (ht : t.Promises = write s.Promises k p) :
    hasPromise t k1 = (hasPromise s k1 || decide (k1 = k)) := by
  unfold hasPromise
  rw [ht]
  by_cases h : k1 = k
  · subst h
    simp [read_write_same]
  · simp [read_write_of_ne _ _ _ _ h, h]

theorem hasPromise_attach (key : String) (r : Reaction) (s : State) (k : String) :
    hasPromise (attach key r s) k = hasPromise s k := by
  unfold attach
  split
  · rfl
  · rename_i p hp
    split
    · rw [hasPromise_write s key k _ _ rfl]
      by_cases h : k = key
      · subst h
        simp [hasPromise, hp]
      · simp [h]
    · rfl

theorem hasPromise_settle (key : String) (o : Settlement) (s : State) (k : String) :
    hasPromise (settle key o s) k = hasPromise s k := by
  unfold settle
  split
  · rfl
  · rename_i p hp
    split
    · rfl
    · rw [hasPromise_write s key k _ _ rfl]
      by_cases h : k = key
      · subst h
        simp [hasPromise, hp]
      · simp [h]

theorem settle_ajaxCalls (key : String) (o : Settlement) (s : State) :
    (settle key o s).ajaxCalls = s.ajaxCalls := by
  unfold settle
  split
  · rfl
  · split <;> rfl

theorem hasPromise_getSystemFile (url : String) (callback : Nat) (s : State) (k : String) :
    hasPromise (getSystemFile url callback s) k = (hasPromise s k || decide (k = url)) := by
  unfold getSystemFile
  rw [hasPromise_attach]
  cases hp : read s.Promises url with
  | none => exact hasPromise_write s url k _ _ rfl
  | some p =>
    by_cases h : k = url
    · subst h
      simp [hasPromise, hp]
    · simp [h]

theorem getConfig_ajaxCalls (callback : Nat) (s : State) :
    (getConfig callback s).ajaxCalls = s.ajaxCalls := by
  unfold getConfig
  rw [attach_ajaxCalls]
  cases read s.Promises "config" <;> rfl

theorem hasPromise_getConfig (callback : Nat) (s : State) (k : String) :
    hasPromise (getConfig callback s) k = (hasPromise s k || decide (k = "config")) := by
  unfold getConfig
  rw [hasPromise_attach]
  cases hp : read s.Promises "config" with
  | none => exact hasPromise_write s "config" k _ _ rfl
  | some p =>
    by_cases h : k = "config"
    · subst h
      simp [hasPromise, hp]
    · simp [h]

theorem setConfig_Promises (config : Value) (s : State) :
    (setConfig config s).state.Promises = s.Promises := by
  unfold setConfig
  split <;> rfl

theorem set_Promises (name : String) (data : Value) (callback : Nat) (s : State) :
    (set name data callback s).state.Promises = s.Promises := by
  simp only [set]
  split
  · rfl
  · split_ifs
    · rfl
    · rw [setConfig_Promises]
    · rfl

theorem setConfig_ajaxCalls (config : Value) (s : State) :
    (setConfig config s).state.ajaxCalls = s.ajaxCalls := by
  unfold setConfig
  split <;> rfl

theorem set_ajaxCalls (name : String) (data : Value) (callback : Nat) (s : State) :
    (set name data callback s).state.ajaxCalls = s.ajaxCalls := by
  simp only [set]
  split
  · rfl
  · split_ifs
    · rfl
    · rw [setConfig_ajaxCalls]
    · rfl

theorem setConfig_jobs (config : Value) (s : State) :
    (setConfig config s).state.jobs = s.jobs := by
  unfold setConfig
  split <;> rfl

theorem set_jobs (name : String) (data : Value) (callback : Nat) (s : State) :
    (set name data callback s).state.jobs = s.jobs := by
  simp only [set]
  split
  · rfl
  · split_ifs
    · rfl
    · rw [setConfig_jobs]
    · rfl

theorem runJob_Promises (j : Job) (s : State) : (runJob j s).Promises = s.Promises := by
  unfold runJob
  split
  · simp only []
    split <;> rfl
  · rfl
  · split
    · rfl
    · simp only []
      split <;> rfl
  · rfl

theorem runJob_ajaxCalls (j : Job) (s : State) : (runJob j s).ajaxCalls = s.ajaxCalls := by
  unfold runJob
  split
  · simp only []
    split <;> rfl
  · rfl
  · split
    · rfl
    · simp only []
      split <;> rfl
  · rfl

theorem runJob_jobs (j : Job) (s : State) : (runJob j s).jobs = s.jobs := by
  unfold runJob
  split
  · simp only []
    split <;> rfl
  · rfl
  · split
    · rfl
    · simp only []
      split <;> rfl
  · rfl

/-! ## Deduplication of transport calls -/

theorem TransportInv_of_same (s t : State) (h1 : t.ajaxCalls = s.ajaxCalls)
    (h2 : ∀ k, hasPromise t k = hasPromise s k) (h : TransportInv s) : TransportInv t := by
  obtain ⟨hn, ha, hb⟩ := h
  refine ⟨h1 ▸ hn, ?_, ?_⟩
  · intro url hu
    rw [h2]
    exact ha url (h1 ▸ hu)
  · intro key hk
    rw [h1]
    exact hb key (h2 key ▸ hk)

theorem TransportInv_init : TransportInv State.init := by
  refine ⟨List.nodup_nil, ?_, ?_⟩
  · intro url hu
    cases hu
  · intro key hk
    simp [hasPromise, State.init, read] at hk

theorem TransportInv_getSystemFile (url : String) (callback : Nat) (s : State)
    (h : TransportInv s) : TransportInv (getSystemFile url callback s) := by
  obtain ⟨hn, ha, hb⟩ := h
  by_cases hp : hasPromise s url = true
  · have hp1 : (read s.Promises url).isSome = true := hp
    refine ⟨?_, ?_, ?_⟩
    · rw [getSystemFile_ajaxCalls, if_pos hp1]
      exact hn
    · intro u hu
      rw [getSystemFile_ajaxCalls, if_pos hp1] at hu
      rw [hasPromise_getSystemFile, ha u hu]
      rfl
    · intro key hk
      rw [getSystemFile_ajaxCalls, if_pos hp1]
      rw [hasPromise_getSystemFile, Bool.or_eq_true, decide_eq_true_eq] at hk
      rcases hk with hk | hk
      · exact hb key hk
      · subst hk
        exact hb key hp
  · have hp1 : ¬ (read s.Promises url).isSome = true := hp
    have hnew : url ∉ s.ajaxCalls := fun hu => hp (ha url hu)
    refine ⟨?_, ?_, ?_⟩
    · rw [getSystemFile_ajaxCalls, if_neg hp1]
      exact List.Nodup.append hn (List.nodup_singleton url)
        (by
          intro a ha1 ha2
          rw [List.mem_singleton] at ha2
          exact hnew (ha2 ▸ ha1))
    · intro u hu
      rw [getSystemFile_ajaxCalls, if_neg hp1, List.mem_append, List.mem_singleton] at hu
      rw [hasPromise_getSystemFile, Bool.or_eq_true, decide_eq_true_eq]
      rcases hu with hu | hu
      · exact Or.inl (ha u hu)
      · exact Or.inr hu
    · intro key hk
      rw [getSystemFile_ajaxCalls, if_neg hp1, List.mem_append, List.mem_singleton]
      rw [hasPromise_getSystemFile, Bool.or_eq_true, decide_eq_true_eq] at hk
      rcases hk with hk | hk
      · rcases hb key hk with h1 | h1
        · exact Or.inl (Or.inl h1)
        · exact Or.inr h1
      · exact Or.inl (Or.inr hk)

theorem TransportInv_getConfig (callback : Nat) (s : State) (h : TransportInv s) :
    TransportInv (getConfig callback s) := by
  obtain ⟨hn, ha, hb⟩ := h
  refine ⟨?_, ?_, ?_⟩
  · rw [getConfig_ajaxCalls]
    exact hn
  · intro u hu
    rw [getConfig_ajaxCalls] at hu
    rw [hasPromise_getConfig, ha u hu]
    rfl
  · intro key hk
    rw [getConfig_ajaxCalls]
    rw [hasPromise_getConfig, Bool.or_eq_true, decide_eq_true_eq] at hk
    rcases hk with hk | hk
    · exact hb key hk
    · exact Or.inr hk

theorem get_state_cases (name : String) (callback : Nat) (s : State) :
    (get name callback s).state = s ∨
    (get name callback s).state = getConfig callback s ∨
    (get name callback s).state = getSystemFile (locator name) callback s := by
  simp only [get]
  split
  · exact Or.inl rfl
  · simp only [getModule, locator]
    split_ifs
    · exact Or.inl rfl
    · exact Or.inr (Or.inl rfl)
    · exact Or.inr (Or.inr rfl)

theorem TransportInv_step (s : State) (e : Event) (h : TransportInv s) :
    TransportInv (step s e) := by
  cases e with
  | get name callback =>
    simp only [step]
    rcases get_state_cases name callback s with h1 | h1 | h1 <;> rw [h1]
    · exact h
    · exact TransportInv_getConfig callback s h
    · exact TransportInv_getSystemFile _ callback s h
  | set name data callback =>
    exact TransportInv_of_same s _ (set_ajaxCalls name data callback s)
      (fun k => by simp only [step, hasPromise, set_Promises]) h
  | ajaxSuccess url data =>
    simp only [step]
    split_ifs
    · exact TransportInv_of_same s _ (settle_ajaxCalls _ _ s)
        (fun k => hasPromise_settle _ _ s k) h
    · exact h
  | ajaxError url error =>
    simp only [step]
    split_ifs
    · exact TransportInv_of_same s _ (settle_ajaxCalls _ _ s)
        (fun k => hasPromise_settle _ _ s k) h
    · exact h
  | configRead data =>
    simp only [step]
    split_ifs
    · exact TransportInv_of_same s _ (settle_ajaxCalls _ _ s)
        (fun k => hasPromise_settle _ _ s k) h
    · exact h
  | job =>
    simp only [step]
    split
    · exact h
    · exact TransportInv_of_same s _ (by rw [runJob_ajaxCalls])
        (fun k => by simp only [hasPromise, runJob_Promises]) h

theorem run_nil (s : State) : run s [] = s := rfl

theorem run_cons (s : State) (e : Event) (es : List Event) :
    run s (e :: es) = run (step s e) es := rfl

theorem run_append (s : State) (es fs : List Event) :
    run s (es ++ fs) = run (run s es) fs := by
  simp [run, List.foldl_append]

theorem TransportInv_run (s : State) (es : List Event) (h : TransportInv s) :
    TransportInv (run s es) := by
  induction es generalizing s with
  | nil => exact h
  | cons e es ih => exact ih (step s e) (TransportInv_step s e h)

theorem TransportInv_of_reachable (s : State) (h : Reachable s) : TransportInv s := by
  obtain ⟨es, rfl⟩ := h
  exact TransportInv_run State.init es TransportInv_init

theorem append_ne_config (a x : String) (c : Char) (rest : List Char)
    (ha : a.data = c :: rest) (hc : c ≠ 'c') : a ++ x ≠ "config" := by
  intro h
  have h1 := congrArg String.data h
  rw [String.data_append, ha] at h1
  have h2 : "config".data = 'c' :: "onfig".data := rfl
  rw [h2] at h1
  exact hc (List.cons.inj h1).1

theorem locator_ne_config (name : String) (h : recognisedByGet name = true) :
    locator name ≠ "config" := by
  cases hH : matchesHTML name with
  | true =>
    cases hR : matchesRoot name with
    | true =>
      rw [locator_root name hH hR, String.append_assoc]
      exact append_ne_config _ _ '/' "html/".data rfl (by decide)
    | false =>
      rw [locator_fs name hH hR, String.append_assoc]
      exact append_ne_config _ _ '/' "html/fs/".data rfl (by decide)
  | false =>
    have hJ : matchesJSON name = true := by
      simpa [recognisedByGet, hH] using h
    rw [locator_json name hH hJ, String.append_assoc]
    exact append_ne_config _ _ '/' "json/".data rfl (by decide)

theorem mem_ajaxCalls_step (s : State) (e : Event) (url : String)
    (h : url ∈ s.ajaxCalls) : url ∈ (step s e).ajaxCalls := by
  cases e with
  | get name callback =>
    simp only [step]
    rcases get_state_cases name callback s with h1 | h1 | h1 <;> rw [h1]
    · exact h
    · rw [getConfig_ajaxCalls]
      exact h
    · rw [getSystemFile_ajaxCalls]
      split_ifs
      · exact h
      · exact List.mem_append_left _ h
  | set name data callback =>
    simp only [step, set_ajaxCalls]
    exact h
  | ajaxSuccess u data =>
    simp only [step]
    split_ifs
    · rw [settle_ajaxCalls]
      exact h
    · exact h
  | ajaxError u error =>
    simp only [step]
    split_ifs
    · rw [settle_ajaxCalls]
      exact h
    · exact h
  | configRead data =>
    simp only [step]
    split_ifs
    · rw [settle_ajaxCalls]
      exact h
    · exact h
  | job =>
    simp only [step]
    split
    · exact h
    · rw [runJob_ajaxCalls]
      exact h

theorem mem_ajaxCalls_run (s : State) (es : List Event) (url : String)
    (h : url ∈ s.ajaxCalls) : url ∈ (run s es).ajaxCalls := by
  induction es generalizing s with
  | nil => exact h
  | cons e es ih => exact ih (step s e) (mem_ajaxCalls_step s e url h)

theorem locator_mem_ajaxCalls_after_get (s : State) (name : String) (callback : Nat)
    (hinv : TransportInv s) (hrec : recognisedByGet name = true) (hne : name ≠ "config") :
    locator name ∈ (step s (Event.get name callback)).ajaxCalls := by
  have hinv1 : TransportInv (step s (Event.get name callback)) :=
    TransportInv_step s _ hinv
  have hp : hasPromise (step s (Event.get name callback)) (locator name) = true := by
    simp only [step]
    rw [get_of_recognised name callback s hrec hne, hasPromise_getSystemFile]
    simp
  rcases hinv1.2.2 _ hp with h | h
  · exact h
  · exact absurd h (locator_ne_config name hrec)

theorem ajaxCalls_after_gets (s : State) (name : String) (callbacks : List Nat)
    (hrec : recognisedByGet name = true) (hne : name ≠ "config")
    (hcb : callbacks ≠ []) :
    (run s (callbacks.map (Event.get name))).ajaxCalls =
      if hasPromise s (locator name) = true then s.ajaxCalls
      else s.ajaxCalls ++ [locator name] := by
  have key : ∀ (cbs : List Nat) (t : State), hasPromise t (locator name) = true →
      (run t (cbs.map (Event.get name))).ajaxCalls = t.ajaxCalls := by
    intro cbs
    induction cbs with
    | nil => intro t _; rfl
    | cons c cs ih =>
      intro t ht
      have ht1 : (read t.Promises (locator name)).isSome = true := ht
      rw [List.map_cons, run_cons, ih]
      · simp only [step]
        rw [get_of_recognised name c t hrec hne, getSystemFile_ajaxCalls, if_pos ht1]
      · simp only [step]
        rw [get_of_recognised name c t hrec hne, hasPromise_getSystemFile, ht]
        rfl
  cases callbacks with
  | nil => exact absurd rfl hcb
  | cons c cs =>
    rw [List.map_cons, run_cons, key]
    · simp only [step]
      rw [get_of_recognised name c s hrec hne, getSystemFile_ajaxCalls]
      rfl
    · simp only [step]
      rw [get_of_recognised name c s hrec hne, hasPromise_getSystemFile]
      simp

/-- C7: in every reachable state the transport has been called at most once
per path. For an accepted name other than `config`, any number N >= 1 of
`get` calls in a row adds exactly one request for the locator of the name
when none was stored, and none otherwise; and after any sequence of events
that contains a `get` for the name, in whatever interleaving with other
calls, transport answers and promise jobs, the transport has been called
exactly once for that locator. -/
theorem transport_called_once_per_locator (s : State) (hreach : Reachable s) :
    (∀ url, s.ajaxCalls.count url ≤ 1) ∧
    (∀ name, recognisedByGet name = true → name ≠ "config" →
      (∀ callbacks : List Nat, callbacks ≠ [] →
        (run s (callbacks.map (Event.get name))).ajaxCalls =
          if hasPromise s (locator name) = true then s.ajaxCalls
          else s.ajaxCalls ++ [locator name]) ∧
      (∀ events : List Event, (∃ callback, Event.get name callback ∈ events) →
        (run s events).ajaxCalls.count (locator name) = 1)) := by
  have hinv := TransportInv_of_reachable s hreach
  refine ⟨List.nodup_iff_count_le_one.1 hinv.1, ?_⟩
  intro name hrec hne
  refine ⟨fun callbacks hcb => ajaxCalls_after_gets s name callbacks hrec hne hcb, ?_⟩
  rintro events ⟨callback, hmem⟩
  obtain ⟨es, fs, rfl⟩ := List.append_of_mem hmem
  have hinv2 : TransportInv (run s (es ++ Event.get name callback :: fs)) :=
    TransportInv_run s _ hinv
  apply List.count_eq_one_of_mem hinv2.1
  rw [run_append, run_cons]
  apply mem_ajaxCalls_run
  exact locator_mem_ajaxCalls_after_get _ name callback (TransportInv_run s es hinv) hrec hne

theorem transport_called_once_per_locator_witness :
    Reachable (run State.init [Event.get "modules" 0]) ∧
    (run (run State.init [Event.get "modules" 0])
      [Event.get "modules" 1, Event.ajaxSuccess "/json/modules.json" (Value.num 1),
       Event.get "modules" 2]).ajaxCalls.count (locator "modules") = 1 :=
  ⟨⟨[Event.get "modules" 0], rfl⟩,
    ((transport_called_once_per_locator (run State.init [Event.get "modules" 0])
      ⟨[Event.get "modules" 0], rfl⟩).2 "modules" (by decide) (by decide)).2
      [Event.get "modules" 1, Event.ajaxSuccess "/json/modules.json" (Value.num 1),
       Event.get "modules" 2] ⟨1, by decide⟩⟩

/-! ## Settled promises stay as they are -/

theorem settlementOf_write (s t : State) (k k1 : String) (p : PromiseState)
    (ht : t.Promises = write s.Promises k p) :
    settlementOf t k1 = if k1 = k then p.settled else settlementOf s k1 := by
  unfold settlementOf
  rw [ht]
  by_cases h : k1 = k
  · subst h
    simp [read_write_same]
  · simp [read_write_of_ne _ _ _ _ h, h]

theorem settlementOf_attach (key : String) (r : Reaction) (s : State) (k : String) :
    settlementOf (attach key r s) k = settlementOf s k := by
  unfold attach
  split
  · rfl
  · rename_i p hp
    split
    · rename_i hs
      rw [settlementOf_write s _ key k _ rfl]
      split_ifs with h
      · subst h
        simp [settlementOf, hp, hs]
      · rfl
    · rfl

theorem settlementOf_getSystemFile (url : String) (callback : Nat) (s : State)
    (k : String) : settlementOf (getSystemFile url callback s) k = settlementOf s k := by
  unfold getSystemFile
  rw [settlementOf_attach]
  cases hp : read s.Promises url with
  | some p => rfl
  | none =>
    simp only []
    rw [settlementOf_write s _ url k _ rfl]
    split_ifs with h
    · subst h
      simp [settlementOf, hp]
    · rfl

theorem settlementOf_getConfig (callback : Nat) (s : State) (k : String) :
    settlementOf (getConfig callback s) k = settlementOf s k := by
  unfold getConfig
  rw [settlementOf_attach]
  cases hp : read s.Promises "config" with
  | some p => rfl
  | none =>
    simp only []
    rw [settlementOf_write s _ "config" k _ rfl]
    split_ifs with h
    · subst h
      simp [settlementOf, hp]
    · rfl

theorem settlementOf_settle (key : String) (o1 : Settlement) (s : State) (k : String)
    (o : Settlement) (h : settlementOf s k = some o) :
    settlementOf (settle key o1 s) k = some o := by
  unfold settle
  split
  · exact h
  · rename_i p hp
    split
    · exact h
    · rename_i hs
      rw [settlementOf_write s _ key k _ rfl]
      split_ifs with hk
      · subst hk
        simp [settlementOf, hp, hs] at h
      · exact h

theorem settlementOf_step (s : State) (e : Event) (k : String) (o : Settlement)
    (h : settlementOf s k = some o) : settlementOf (step s e) k = some o := by
  cases e with
  | get name callback =>
    simp only [step]
    rcases get_state_cases name callback s with h1 | h1 | h1 <;> rw [h1]
    · exact h
    · rw [settlementOf_getConfig]
      exact h
    · rw [settlementOf_getSystemFile]
      exact h
  | set name data callback =>
    simp only [step, settlementOf, set_Promises]
    exact h
  | ajaxSuccess u data =>
    simp only [step]
    split_ifs
    · exact settlementOf_settle _ _ s k o h
    · exact h
  | ajaxError u error =>
    simp only [step]
    split_ifs
    · exact settlementOf_settle _ _ s k o h
    · exact h
  | configRead data =>
    simp only [step]
    split_ifs
    · exact settlementOf_settle _ _ s k o h
    · exact h
  | job =>
    simp only [step]
    split
    · exact h
    · simp only [settlementOf, runJob_Promises]
      exact h

theorem settlementOf_run (s : State) (es : List Event) (k : String) (o : Settlement)
    (h : settlementOf s k = some o) : settlementOf (run s es) k = some o := by
  induction es generalizing s with
  | nil => exact h
  | cons e es ih => exact ih (step s e) (settlementOf_step s e k o h)

/-! ## Queued jobs carry the settlement of their promise -/

theorem JobInv_init : JobInv State.init := by
  refine ⟨?_, ?_⟩
  · intro j hj
    cases hj
  · intro key p hp
    simp [State.init, read] at hp

theorem JobInv_of_same (s t : State) (h1 : t.Promises = s.Promises)
    (h2 : ∀ j ∈ t.jobs, j ∈ s.jobs) (h : JobInv s) : JobInv t := by
  obtain ⟨ha, hb⟩ := h
  refine ⟨?_, ?_⟩
  · intro j hj url callback hr
    have := ha j (h2 j hj) url callback hr
    simpa [settlementOf, h1] using this
  · intro key p hp
    rw [h1] at hp
    exact hb key p hp

theorem JobInv_attach (key : String) (r : Reaction) (s : State)
    (hr : ∀ url callback, r = Reaction.systemFile url callback → url = key)
    (h : JobInv s) : JobInv (attach key r s) := by
  obtain ⟨ha, hb⟩ := h
  refine ⟨?_, ?_⟩
  · intro j hj url callback hjr
    rw [settlementOf_attach]
    unfold attach at hj
    split at hj
    · exact ha j hj url callback hjr
    · rename_i p hp
      split at hj
      · exact ha j hj url callback hjr
      · rename_i o hs
        simp only [List.mem_append, List.mem_singleton] at hj
        rcases hj with hj | hj
        · exact ha j hj url callback hjr
        · subst hj
          have hu : url = key := hr url callback hjr
          subst hu
          simp [settlementOf, hp, hs]
  · intro k p hp url callback hmem
    unfold attach at hp
    split at hp
    · exact hb k p hp url callback hmem
    · rename_i p0 hp0
      split at hp
      · simp only [] at hp
        by_cases hk : k = key
        · subst hk
          rw [read_write_same] at hp
          cases hp
          simp only [List.mem_append, List.mem_singleton] at hmem
          rcases hmem with hmem | hmem
          · exact hb k p0 hp0 url callback hmem
          · exact hr url callback hmem.symm
        · rw [read_write_of_ne _ _ _ _ hk] at hp
          exact hb k p hp url callback hmem
      · exact hb k p hp url callback hmem

theorem JobInv_settle (key : String) (o : Settlement) (s : State) (h : JobInv s) :
    JobInv (settle key o s) := by
  obtain ⟨ha, hb⟩ := h
  refine ⟨?_, ?_⟩
  · intro j hj url callback hjr
    unfold settle at hj
    split at hj
    · exact settlementOf_settle key o s url _ (ha j hj url callback hjr)
    · rename_i p hp
      split at hj
      · exact settlementOf_settle key o s url _ (ha j hj url callback hjr)
      · rename_i hs
        simp only [List.mem_append, List.mem_map] at hj
        rcases hj with hj | ⟨r, hr, rfl⟩
        · exact settlementOf_settle key o s url _ (ha j hj url callback hjr)
        · simp only [] at hjr
          subst hjr
          have hu : url = key := hb key p hp url callback hr
          subst hu
          unfold settle
          simp only [hp, hs]
          rw [settlementOf_write s _ url url _ rfl]
          simp
  · intro k p hp url callback hmem
    unfold settle at hp
    split at hp
    · exact hb k p hp url callback hmem
    · rename_i p0 hp0
      split at hp
      · exact hb k p hp url callback hmem
      · simp only [] at hp
        by_cases hk : k = key
        · subst hk
          rw [read_write_same] at hp
          cases hp
          cases hmem
        · rw [read_write_of_ne _ _ _ _ hk] at hp
          exact hb k p hp url callback hmem

theorem JobInv_fresh (key : String) (s t : State)
    (habs : read s.Promises key = none)
    (hP : t.Promises = write s.Promises key { settled := none, reactions := [] })
    (hj : t.jobs = s.jobs) (h : JobInv s) : JobInv t := by
  obtain ⟨ha, hb⟩ := h
  refine ⟨?_, ?_⟩
  · intro j hjm url callback hjr
    rw [hj] at hjm
    rw [settlementOf_write s t key url _ hP]
    split_ifs with hk
    · subst hk
      have := ha j hjm url callback hjr
      simp [settlementOf, habs] at this
    · exact ha j hjm url callback hjr
  · intro k p hp url callback hmem
    rw [hP] at hp
    by_cases hk : k = key
    · subst hk
      rw [read_write_same] at hp
      cases hp
      cases hmem
    · rw [read_write_of_ne _ _ _ _ hk] at hp
      exact hb k p hp url callback hmem

theorem JobInv_getSystemFile (url : String) (callback : Nat) (s : State) (h : JobInv s) :
    JobInv (getSystemFile url callback s) := by
  unfold getSystemFile
  apply JobInv_attach
  · intro u c hr
    cases hr
    rfl
  · cases hp : read s.Promises url with
    | some p => exact h
    | none => exact JobInv_fresh url s _ hp rfl rfl h

theorem JobInv_getConfig (callback : Nat) (s : State) (h : JobInv s) :
    JobInv (getConfig callback s) := by
  unfold getConfig
  apply JobInv_attach
  · intro u c hr
    cases hr
  · cases hp : read s.Promises "config" with
    | some p => exact h
    | none => exact JobInv_fresh "config" s _ hp rfl rfl h

theorem JobInv_step (s : State) (e : Event) (h : JobInv s) : JobInv (step s e) := by
  cases e with
  | get name callback =>
    simp only [step]
    rcases get_state_cases name callback s with h1 | h1 | h1 <;> rw [h1]
    · exact h
    · exact JobInv_getConfig callback s h
    · exact JobInv_getSystemFile _ callback s h
  | set name data callback =>
    exact JobInv_of_same s _ (set_Promises name data callback s)
      (fun j hj => by simpa only [step, set_jobs] using hj) h
  | ajaxSuccess url data =>
    simp only [step]
    split_ifs
    · exact JobInv_settle _ _ s h
    · exact h
  | ajaxError url error =>
    simp only [step]
    split_ifs
    · exact JobInv_settle _ _ s h
    · exact h
  | configRead data =>
    simp only [step]
    split_ifs
    · exact JobInv_settle _ _ s h
    · exact h
  | job =>
    simp only [step]
    split
    · exact h
    · rename_i j rest hjobs
      refine JobInv_of_same s _ (by rw [runJob_Promises]) ?_ h
      intro j1 hj1
      rw [runJob_jobs] at hj1
      rw [hjobs]
      exact List.mem_cons_of_mem j hj1

theorem JobInv_of_reachable (s : State) (h : Reachable s) : JobInv s := by
  obtain ⟨es, rfl⟩ := h
  have key : ∀ (es : List Event) (t : State), JobInv t → JobInv (run t es) := by
    intro es
    induction es with
    | nil => intro t ht; exact ht
    | cons e es ih => intro t ht; exact ih (step t e) (JobInv_step t e ht)
  exact key es State.init JobInv_init

/-! ## A settled locator: cached payloads and cached failures -/

theorem getSystemFile_of_settled (url : String) (callback : Nat) (s : State)
    (o : Settlement) (h : settlementOf s url = some o) :
    getSystemFile url callback s =
      { s with jobs := s.jobs ++ [{ reaction := Reaction.systemFile url callback,
                                    settlement := o }] } := by
  unfold settlementOf at h
  cases hp : read s.Promises url with
  | none => simp [hp] at h
  | some p =>
    simp only [hp] at h
    simp [getSystemFile, attach, hp, h]

theorem drain_queue_job (s : State) (j : Job) :
    drain { s with jobs := s.jobs ++ [j] } = runJob j (drain s) := by
  simp [drain, List.foldl_append]

theorem runJob_systemFile_fulfilled_callbackCalls (url : String) (callback : Nat)
    (data : Value) (s : State) :
    (runJob { reaction := Reaction.systemFile url callback,
              settlement := Settlement.fulfilled data } s).callbackCalls =
      s.callbackCalls ++ [(callback, [Value.null, data])] := by
  simp only [runJob]
  split_ifs <;> rfl

theorem runJob_systemFile_rejected (url : String) (callback : Nat)
    (error : Value) (s : State) :
    runJob { reaction := Reaction.systemFile url callback,
             settlement := Settlement.rejected error } s =
      { s with callbackCalls := s.callbackCalls ++ [(callback, [error])] } := rfl

theorem step_job_of_cons (s : State) (j : Job) (rest : List Job) (h : s.jobs = j :: rest) :
    step s Event.job = runJob j { s with jobs := rest } := by
  simp [step, h]

theorem settlementOf_of_queued (s : State) (hreach : Reachable s) (url : String)
    (callback : Nat) (o : Settlement) (rest : List Job)
    (hjob : s.jobs = { reaction := Reaction.systemFile url callback, settlement := o } :: rest) :
    settlementOf s url = some o := by
  have h := (JobInv_of_reachable s hreach).1
    { reaction := Reaction.systemFile url callback, settlement := o }
    (by rw [hjob]; exact List.mem_cons_self _ _) url callback rfl
  exact h

/-- C8: let a `get(name, cb)` for an accepted name other than `config` succeed
with payload `p` (its job is first in the queue of a reachable state and
runs, calling `cb(null, p)`). Then after any further events, transport
answers with other data included, a `get(name, cb2)` throws nothing, issues
no transport call, and only queues the job that calls `cb2(null, p)` with
the same payload `p`. -/
theorem later_get_serves_first_payload (s0 : State) (name : String)
    (callback callback2 : Nat) (p : Value) (rest : List Job) (events : List Event)
    (hreach : Reachable s0) (hrec : recognisedByGet name = true) (hne : name ≠ "config")
    (hjob : s0.jobs =
      { reaction := Reaction.systemFile (locator name) callback,
        settlement := Settlement.fulfilled p } :: rest) :
    (step s0 Event.job).callbackCalls = s0.callbackCalls ++ [(callback, [Value.null, p])] ∧
    get name callback2 (run (step s0 Event.job) events) =
      { state :=
          { run (step s0 Event.job) events with
            jobs := (run (step s0 Event.job) events).jobs ++
              [{ reaction := Reaction.systemFile (locator name) callback2,
                 settlement := Settlement.fulfilled p }] },
        thrown := none } ∧
    (get name callback2 (run (step s0 Event.job) events)).state.ajaxCalls =
      (run (step s0 Event.job) events).ajaxCalls ∧
    (drain (get name callback2 (run (step s0 Event.job) events)).state).callbackCalls =
      (drain (run (step s0 Event.job) events)).callbackCalls ++
        [(callback2, [Value.null, p])] := by
  have hset0 := settlementOf_of_queued s0 hreach _ callback _ rest hjob
  have hset := settlementOf_run _ events _ _ (settlementOf_step s0 Event.job _ _ hset0)
  have hget : get name callback2 (run (step s0 Event.job) events) = _ :=
    (get_of_recognised name callback2 _ hrec hne).trans
      (by rw [getSystemFile_of_settled _ callback2 _ _ hset])
  refine ⟨?_, hget, ?_, ?_⟩
  · rw [step_job_of_cons s0 _ rest hjob, runJob_systemFile_fulfilled_callbackCalls]
  · rw [hget]
  · rw [hget]
    simp only []
    rw [drain_queue_job, runJob_systemFile_fulfilled_callbackCalls]

theorem later_get_serves_first_payload_witness :
    Reachable (run State.init
      [Event.get "modules" 0, Event.ajaxSuccess "/json/modules.json" (Value.num 1)]) ∧
    recognisedByGet "modules" = true ∧ "modules" ≠ "config" ∧
    (drain (get "modules" 5 (run (step (run State.init
      [Event.get "modules" 0, Event.ajaxSuccess "/json/modules.json" (Value.num 1)])
      Event.job) [Event.ajaxSuccess "/json/modules.json" (Value.num 2)])).state).callbackCalls =
      (drain (run (step (run State.init
      [Event.get "modules" 0, Event.ajaxSuccess "/json/modules.json" (Value.num 1)])
      Event.job) [Event.ajaxSuccess "/json/modules.json" (Value.num 2)])).callbackCalls ++
        [(5, [Value.null, Value.num 1])] :=
  ⟨⟨_, rfl⟩, by decide, by decide,
    (later_get_serves_first_payload
      (run State.init
        [Event.get "modules" 0, Event.ajaxSuccess "/json/modules.json" (Value.num 1)])
      "modules" 0 5 (Value.num 1) []
      [Event.ajaxSuccess "/json/modules.json" (Value.num 2)]
      ⟨_, rfl⟩ (by decide) (by decide) (by decide)).2.2.2⟩

/-- C9 (as the code has it): let a `get(name, cb)` for an accepted name other
than `config` fail with `error` (its job is first in the queue of a reachable
state and runs, calling `cb(error)`). The failure does not touch `Data`, but
the rejected promise stays in `Promises`: after any further events, a
`get(name, cb2)` throws nothing, issues no transport call, and only queues
the job that calls `cb2(error)` with the same error. -/
theorem later_get_repeats_first_failure (s0 : State) (name : String)
    (callback callback2 : Nat) (error : Value) (rest : List Job) (events : List Event)
    (hreach : Reachable s0) (hrec : recognisedByGet name = true) (hne : name ≠ "config")
    (hjob : s0.jobs =
      { reaction := Reaction.systemFile (locator name) callback,
        settlement := Settlement.rejected error } :: rest) :
    (step s0 Event.job).callbackCalls = s0.callbackCalls ++ [(callback, [error])] ∧
    (step s0 Event.job).Data = s0.Data ∧
    get name callback2 (run (step s0 Event.job) events) =
      { state :=
          { run (step s0 Event.job) events with
            jobs := (run (step s0 Event.job) events).jobs ++
              [{ reaction := Reaction.systemFile (locator name) callback2,
                 settlement := Settlement.rejected error }] },
        thrown := none } ∧
    (get name callback2 (run (step s0 Event.job) events)).state.ajaxCalls =
      (run (step s0 Event.job) events).ajaxCalls ∧
    (drain (get name callback2 (run (step s0 Event.job) events)).state).callbackCalls =
      (drain (run (step s0 Event.job) events)).callbackCalls ++ [(callback2, [error])] := by
  have hset0 := settlementOf_of_queued s0 hreach _ callback _ rest hjob
  have hset := settlementOf_run _ events _ _ (settlementOf_step s0 Event.job _ _ hset0)
  have hget : get name callback2 (run (step s0 Event.job) events) = _ :=
    (get_of_recognised name callback2 _ hrec hne).trans
      (by rw [getSystemFile_of_settled _ callback2 _ _ hset])
  refine ⟨?_, ?_, hget, ?_, ?_⟩
  · rw [step_job_of_cons s0 _ rest hjob, runJob_systemFile_rejected]
  · rw [step_job_of_cons s0 _ rest hjob, runJob_systemFile_rejected]
  · rw [hget]
  · rw [hget]
    simp only []
    rw [drain_queue_job, runJob_systemFile_rejected]

theorem later_get_repeats_first_failure_witness :
    Reachable (run State.init
      [Event.get "modules" 0, Event.ajaxError "/json/modules.json" (Value.str "offline")]) ∧
    recognisedByGet "modules" = true ∧ "modules" ≠ "config" ∧
    (get "modules" 5 (run (step (run State.init
      [Event.get "modules" 0, Event.ajaxError "/json/modules.json" (Value.str "offline")])
      Event.job) [Event.ajaxSuccess "/json/modules.json" (Value.num 2)])).state.ajaxCalls =
      (run (step (run State.init
      [Event.get "modules" 0, Event.ajaxError "/json/modules.json" (Value.str "offline")])
      Event.job) [Event.ajaxSuccess "/json/modules.json" (Value.num 2)]).ajaxCalls :=
  ⟨⟨_, rfl⟩, by decide, by decide,
    (later_get_repeats_first_failure
      (run State.init
        [Event.get "modules" 0, Event.ajaxError "/json/modules.json" (Value.str "offline")])
      "modules" 0 5 (Value.str "offline") []
      [Event.ajaxSuccess "/json/modules.json" (Value.num 2)]
      ⟨_, rfl⟩ (by decide) (by decide) (by decide)).2.2.2.1⟩

/-- C9 (as stated) fails: `get('modules', 0)` fails with the error `offline` and
`cb(error)` is delivered; a later `get('modules', 1)` does not call the
transport again (one request in all), and although the transport then offers
the payload `2`, the later caller receives the old error, not `(null, 2)`. -/
theorem failed_locator_is_not_retried :
    (run State.init
      [Event.get "modules" 0, Event.ajaxError "/json/modules.json" (Value.str "offline"),
       Event.job, Event.get "modules" 1,
       Event.ajaxSuccess "/json/modules.json" (Value.num 2), Event.job]) =
      { Promises := [("/json/modules.json",
          { settled := some (Settlement.rejected (Value.str "offline")), reactions := [] })],
        Data := [],
        jobs := [],
        ajaxCalls := ["/json/modules.json"],
        configReads := 0,
        setAllowedCalls := [],
        callbackCalls := [(0, [Value.str "offline"]), (1, [Value.str "offline"])] } := by
  decide

/-! ## `set`: the direct write -/

theorem set_of_recognised (name : String) (data : Value) (callback : Nat) (s : State)
    (h : recognisedBySet name = true) (hd : data.truthy = true) :
    set name data callback s =
      if name = "config" then
        setConfig data
          { s with
            Data := write s.Data name data,
            callbackCalls := s.callbackCalls ++ [(callback, [Value.null])] }
      else
        { state :=
            { s with
              Data := write s.Data name data,
              callbackCalls := s.callbackCalls ++ [(callback, [Value.null])] },
          thrown := none } := by
  simp only [recognisedBySet] at h
  have h1 : (regExpMatch (FILES_JSON ++ FILES_HTML ++ FILES_HTML_ROOT) name).isNone = false := by
    cases hm : regExpMatch (FILES_JSON ++ FILES_HTML ++ FILES_HTML_ROOT) name with
    | none => simp [hm] at h
    | some m => rfl
  rw [set_of_checked name data callback s (recognisedBySet_ne_empty name
    (by simpa [recognisedBySet] using h)) hd]
  simp [h1]

theorem setConfig_Data (config : Value) (s : State) :
    (setConfig config s).state.Data = s.Data := by
  unfold setConfig
  split <;> rfl

theorem setConfig_callbackCalls (config : Value) (s : State) :
    (setConfig config s).state.callbackCalls = s.callbackCalls := by
  unfold setConfig
  split <;> rfl

theorem setConfig_configReads (config : Value) (s : State) :
    (setConfig config s).state.configReads = s.configReads := by
  unfold setConfig
  split <;> rfl

theorem set_state_Data (name : String) (data : Value) (callback : Nat) (s : State)
    (h : recognisedBySet name = true) (hd : data.truthy = true) :
    (set name data callback s).state.Data = write s.Data name data := by
  rw [set_of_recognised name data callback s h hd]
  split_ifs
  · rw [setConfig_Data]
  · rfl

theorem set_state_callbackCalls (name : String) (data : Value) (callback : Nat) (s : State)
    (h : recognisedBySet name = true) (hd : data.truthy = true) :
    (set name data callback s).state.callbackCalls =
      s.callbackCalls ++ [(callback, [Value.null])] := by
  rw [set_of_recognised name data callback s h hd]
  split_ifs
  · rw [setConfig_callbackCalls]
  · rfl

theorem set_configReads (name : String) (data : Value) (callback : Nat) (s : State) :
    (set name data callback s).state.configReads = s.configReads := by
  simp only [set]
  split
  · rfl
  · split_ifs
    · rfl
    · rw [setConfig_configReads]
    · rfl

/-- C11 (as the code has it): for a name that `set` recognises and truthy
`data`, `set(name, data, cb)` stores `data` under `Data[name]`, calls `cb`
once, with the single argument `null`, makes no call to the transport or to
the configuration collaborator, leaves `Promises` and the job queue as they
were, and leaves every other key of `Data` as it was. -/
theorem set_stores_and_calls_back (name : String) (data : Value) (callback : Nat)
    (s : State) (h : recognisedBySet name = true) (hd : data.truthy = true) :
    read (set name data callback s).state.Data name = some data ∧
    (set name data callback s).state.callbackCalls =
      s.callbackCalls ++ [(callback, [Value.null])] ∧
    (set name data callback s).state.ajaxCalls = s.ajaxCalls ∧
    (set name data callback s).state.configReads = s.configReads ∧
    (set name data callback s).state.Promises = s.Promises ∧
    (set name data callback s).state.jobs = s.jobs ∧
    (∀ key, key ≠ name →
      read (set name data callback s).state.Data key = read s.Data key) := by
  refine ⟨?_, set_state_callbackCalls name data callback s h hd, set_ajaxCalls _ _ _ _,
    set_configReads _ _ _ _, set_Promises _ _ _ _, set_jobs _ _ _ _, ?_⟩
  · rw [set_state_Data name data callback s h hd, read_write_same]
  · intro key hkey
    rw [set_state_Data name data callback s h hd, read_write_of_ne _ _ _ _ hkey]

theorem set_stores_and_calls_back_witness :
    recognisedBySet "modules" = true ∧ (Value.num 3).truthy = true ∧
    read (set "modules" (Value.num 3) 4 State.init).state.Data "modules" =
      some (Value.num 3) :=
  ⟨by decide, by decide,
    (set_stores_and_calls_back "modules" (Value.num 3) 4 State.init (by decide)
      (by decide)).1⟩

/-- C11 (as stated) fails: `set` recognises `modules`, but `set('modules', 0, cb)`
stores nothing and does not call `cb`: `Util.checkArgs(arguments, [name, data])`
throws on the falsy `data` before the store. -/
theorem set_with_falsy_data_stores_nothing :
    recognisedBySet "modules" = true ∧
    set "modules" (Value.num 0) 4 State.init =
      { state := State.init, thrown := some (Thrown.empty (Value.num 0)) } ∧
    read (set "modules" (Value.num 0) 4 State.init).state.Data "modules" = none ∧
    (set "modules" (Value.num 0) 4 State.init).state.callbackCalls = [] := by
  decide

/-- C12: in every state, for every object `data`, `set('config', data, cb)` throws
nothing and adds exactly one call `Storage.setAllowed(data.localStorage)`;
with `data = {localStorage: false}` the call is `setAllowed(false)`. -/
theorem set_config_calls_setAllowed (id : Nat) (localStorage : Value) (callback : Nat)
    (s : State) :
    (set "config" (Value.obj id localStorage) callback s).thrown = none ∧
    (set "config" (Value.obj id localStorage) callback s).state.setAllowedCalls =
      s.setAllowedCalls ++ [localStorage] ∧
    (set "config" (Value.obj id (Value.bool false)) callback s).state.setAllowedCalls =
      s.setAllowedCalls ++ [Value.bool false] := by
  have key : ∀ ls : Value,
      set "config" (Value.obj id ls) callback s =
        { state :=
            { s with
              Data := write s.Data "config" (Value.obj id ls),
              callbackCalls := s.callbackCalls ++ [(callback, [Value.null])],
              setAllowedCalls := s.setAllowedCalls ++ [ls] },
          thrown := none } := by
    intro ls
    rw [set_of_recognised "config" (Value.obj id ls) callback s (by decide) rfl]
    rfl
  refine ⟨?_, ?_, ?_⟩
  · rw [key]
  · rw [key]
  · rw [key]

/-- C14: in every state `get('config', cb)` goes to `getConfig`, although `config`
also matches the JSON pattern: it throws nothing, adds no call to the
transport, and leaves `Promises['/json/config.json']` as it was. -/
theorem get_config_takes_config_channel (callback : Nat) (s : State) :
    matchesJSON "config" = true ∧
    get "config" callback s = { state := getConfig callback s, thrown := none } ∧
    (get "config" callback s).state.ajaxCalls = s.ajaxCalls ∧
    hasPromise (get "config" callback s).state "/json/config.json" =
      hasPromise s "/json/config.json" := by
  have hget : get "config" callback s = { state := getConfig callback s, thrown := none } := by
    have h1 : regExpMatch FILES_JSON "config" = some "config".data := by decide
    rw [get_of_nonempty "config" callback s (by decide)]
    simp [getModule, h1]
  refine ⟨by decide, hget, ?_, ?_⟩
  · rw [hget]
    exact getConfig_ajaxCalls callback s
  · rw [hget, hasPromise_getConfig]
    simp

/-! ## What reaches `Data` -/

theorem write_write {α : Type} (t : List (String × α)) (k : String) (v w : α) :
    write (write t k v) k w = write t k w := by
  induction t with
  | nil => simp [write]
  | cons e rest ih =>
    obtain ⟨k0, v0⟩ := e
    by_cases h : k0 = k
    · simp [write, h]
    · simp [write, h, ih]

theorem attach_Data (key : String) (r : Reaction) (s : State) :
    (attach key r s).Data = s.Data := by
  unfold attach
  split
  · rfl
  · split <;> rfl

theorem settle_Data (key : String) (o : Settlement) (s : State) :
    (settle key o s).Data = s.Data := by
  unfold settle
  split
  · rfl
  · split <;> rfl

theorem getSystemFile_Data (url : String) (callback : Nat) (s : State) :
    (getSystemFile url callback s).Data = s.Data := by
  unfold getSystemFile
  rw [attach_Data]
  cases read s.Promises url <;> rfl

theorem getConfig_Data (callback : Nat) (s : State) :
    (getConfig callback s).Data = s.Data := by
  unfold getConfig
  rw [attach_Data]
  cases read s.Promises "config" <;> rfl

theorem get_Data (name : String) (callback : Nat) (s : State) :
    (get name callback s).state.Data = s.Data := by
  rcases get_state_cases name callback s with h | h | h <;> rw [h]
  · exact getConfig_Data callback s
  · exact getSystemFile_Data _ callback s

theorem holds_of_truthy (table : List (String × Value)) (key : String) (v : Value)
    (h : read table key = some v) (ht : v.truthy = true) : holds table key = true := by
  simp [holds, h, ht]

theorem runJob_keeps_truthy (j : Job) (s : State) (k : String) (v : Value)
    (h : read s.Data k = some v) (ht : v.truthy = true) :
    read (runJob j s).Data k = some v := by
  obtain ⟨r, o⟩ := j
  cases r with
  | systemFile url callback =>
    cases o with
    | fulfilled data =>
      simp only [runJob]
      by_cases hu : url = k
      · subst hu
        rw [if_pos (holds_of_truthy _ _ v h ht)]
        exact h
      · split_ifs
        · exact h
        · simp only []
          rw [read_write_of_ne _ _ _ _ (Ne.symm hu)]
          exact h
    | rejected error => exact h
  | config callback =>
    cases o with
    | fulfilled data =>
      simp only [runJob]
      by_cases hu : "config" = k
      · subst hu
        rw [if_pos (holds_of_truthy _ _ v h ht)]
        exact h
      · split_ifs
        · exact h
        · split
          · show read (write s.Data "config" data) k = some v
            rw [read_write_of_ne _ _ _ _ (Ne.symm hu)]
            exact h
          · show read (write s.Data "config" data) k = some v
            rw [read_write_of_ne _ _ _ _ (Ne.symm hu)]
            exact h
    | rejected error => exact h

theorem QueueInv_init : QueueInv State.init := by
  refine ⟨?_, ?_⟩
  · intro j hj
    cases hj
  · intro key p hp
    simp [State.init, read] at hp

theorem QueueInv_of_same (s t : State) (h1 : t.Promises = s.Promises)
    (h2 : ∀ j ∈ t.jobs, j ∈ s.jobs) (h : QueueInv s) : QueueInv t := by
  obtain ⟨ha, hb⟩ := h
  refine ⟨?_, ?_⟩
  · intro j hj
    have := ha j (h2 j hj)
    simpa [settlementOf, h1] using this
  · intro key p hp
    rw [h1] at hp
    exact hb key p hp

theorem QueueInv_attach (key : String) (r : Reaction) (s : State)
    (hr : r.key = key) (h : QueueInv s) : QueueInv (attach key r s) := by
  obtain ⟨ha, hb⟩ := h
  refine ⟨?_, ?_⟩
  · intro j hj
    rw [settlementOf_attach]
    unfold attach at hj
    split at hj
    · exact ha j hj
    · rename_i p hp
      split at hj
      · exact ha j hj
      · rename_i o hs
        simp only [List.mem_append, List.mem_singleton] at hj
        rcases hj with hj | hj
        · exact ha j hj
        · subst hj
          simp only []
          rw [hr]
          simp [settlementOf, hp, hs]
  · intro k p hp r1 hmem
    unfold attach at hp
    split at hp
    · exact hb k p hp r1 hmem
    · rename_i p0 hp0
      split at hp
      · simp only [] at hp
        by_cases hk : k = key
        · subst hk
          rw [read_write_same] at hp
          cases hp
          simp only [List.mem_append, List.mem_singleton] at hmem
          rcases hmem with hmem | hmem
          · exact hb k p0 hp0 r1 hmem
          · rw [hmem]
            exact hr
        · rw [read_write_of_ne _ _ _ _ hk] at hp
          exact hb k p hp r1 hmem
      · exact hb k p hp r1 hmem

theorem QueueInv_settle (key : String) (o : Settlement) (s : State) (h : QueueInv s) :
    QueueInv (settle key o s) := by
  obtain ⟨ha, hb⟩ := h
  refine ⟨?_, ?_⟩
  · intro j hj
    unfold settle at hj
    split at hj
    · exact settlementOf_settle key o s _ _ (ha j hj)
    · rename_i p hp
      split at hj
      · exact settlementOf_settle key o s _ _ (ha j hj)
      · rename_i hs
        simp only [List.mem_append, List.mem_map] at hj
        rcases hj with hj | ⟨r, hr, rfl⟩
        · exact settlementOf_settle key o s _ _ (ha j hj)
        · simp only []
          rw [hb key p hp r hr]
          unfold settle
          simp only [hp, hs]
          rw [settlementOf_write s _ key key _ rfl]
          simp
  · intro k p hp r1 hmem
    unfold settle at hp
    split at hp
    · exact hb k p hp r1 hmem
    · rename_i p0 hp0
      split at hp
      · exact hb k p hp r1 hmem
      · simp only [] at hp
        by_cases hk : k = key
        · subst hk
          rw [read_write_same] at hp
          cases hp
          cases hmem
        · rw [read_write_of_ne _ _ _ _ hk] at hp
          exact hb k p hp r1 hmem

theorem QueueInv_fresh (key : String) (s t : State)
    (habs : read s.Promises key = none)
    (hP : t.Promises = write s.Promises key { settled := none, reactions := [] })
    (hj : t.jobs = s.jobs) (h : QueueInv s) : QueueInv t := by
  obtain ⟨ha, hb⟩ := h
  refine ⟨?_, ?_⟩
  · intro j hjm
    rw [hj] at hjm
    rw [settlementOf_write s t key _ _ hP]
    split_ifs with hk
    · have := ha j hjm
      rw [hk] at this
      simp [settlementOf, habs] at this
    · exact ha j hjm
  · intro k p hp r1 hmem
    rw [hP] at hp
    by_cases hk : k = key
    · subst hk
      rw [read_write_same] at hp
      cases hp
      cases hmem
    · rw [read_write_of_ne _ _ _ _ hk] at hp
      exact hb k p hp r1 hmem

theorem QueueInv_getSystemFile (url : String) (callback : Nat) (s : State)
    (h : QueueInv s) : QueueInv (getSystemFile url callback s) := by
  unfold getSystemFile
  apply QueueInv_attach
  · rfl
  · cases hp : read s.Promises url with
    | some p => exact h
    | none => exact QueueInv_fresh url s _ hp rfl rfl h

theorem QueueInv_getConfig (callback : Nat) (s : State) (h : QueueInv s) :
    QueueInv (getConfig callback s) := by
  unfold getConfig
  apply QueueInv_attach
  · rfl
  · cases hp : read s.Promises "config" with
    | some p => exact h
    | none => exact QueueInv_fresh "config" s _ hp rfl rfl h

theorem QueueInv_step (s : State) (e : Event) (h : QueueInv s) : QueueInv (step s e) := by
  cases e with
  | get name callback =>
    simp only [step]
    rcases get_state_cases name callback s with h1 | h1 | h1 <;> rw [h1]
    · exact h
    · exact QueueInv_getConfig callback s h
    · exact QueueInv_getSystemFile _ callback s h
  | set name data callback =>
    exact QueueInv_of_same s _ (set_Promises name data callback s)
      (fun j hj => by simpa only [step, set_jobs] using hj) h
  | ajaxSuccess url data =>
    simp only [step]
    split_ifs
    · exact QueueInv_settle _ _ s h
    · exact h
  | ajaxError url error =>
    simp only [step]
    split_ifs
    · exact QueueInv_settle _ _ s h
    · exact h
  | configRead data =>
    simp only [step]
    split_ifs
    · exact QueueInv_settle _ _ s h
    · exact h
  | job =>
    simp only [step]
    split
    · exact h
    · rename_i j rest hjobs
      refine QueueInv_of_same s _ (by rw [runJob_Promises]) ?_ h
      intro j1 hj1
      rw [runJob_jobs] at hj1
      rw [hjobs]
      exact List.mem_cons_of_mem j hj1

theorem set_Data_cases (name : String) (data : Value) (callback : Nat) (s : State) :
    (set name data callback s).state.Data = s.Data ∨
    (data.truthy = true ∧ (set name data callback s).state.Data = write s.Data name data) := by
  by_cases hrec : recognisedBySet name = true
  · cases hd : data.truthy with
    | true => exact Or.inr ⟨rfl, set_state_Data name data callback s hrec hd⟩
    | false =>
      rw [set_of_falsy name data callback s (recognisedBySet_ne_empty name hrec) hd]
      exact Or.inl rfl
  · rw [set_throw_keeps_state name data callback s (by simpa using hrec)]
    exact Or.inl rfl

theorem not_holds_falsy (table : List (String × Value)) (key : String) (v : Value)
    (h : read table key = some v) (hh : ¬ holds table key = true) : v.truthy = false := by
  simpa [holds, h] using hh

theorem DataInv_step (s : State) (e : Event) (hq : QueueInv s) (h : DataInv s) :
    DataInv (step s e) := by
  intro key v hv hf
  cases e with
  | get name callback =>
    simp only [step, get_Data] at hv
    exact settlementOf_step s _ key _ (h key v hv hf)
  | set name data callback =>
    apply settlementOf_step s _ key _
    simp only [step] at hv
    rcases set_Data_cases name data callback s with hD | ⟨hd, hD⟩
    · rw [hD] at hv
      exact h key v hv hf
    · rw [hD] at hv
      by_cases hk : key = name
      · subst hk
        rw [read_write_same] at hv
        cases hv
        rw [hd] at hf
        cases hf
      · rw [read_write_of_ne _ _ _ _ hk] at hv
        exact h key v hv hf
  | ajaxSuccess url data =>
    apply settlementOf_step s _ key _
    simp only [step] at hv
    split_ifs at hv
    · rw [settle_Data] at hv
      exact h key v hv hf
    · exact h key v hv hf
  | ajaxError url error =>
    apply settlementOf_step s _ key _
    simp only [step] at hv
    split_ifs at hv
    · rw [settle_Data] at hv
      exact h key v hv hf
    · exact h key v hv hf
  | configRead data =>
    apply settlementOf_step s _ key _
    simp only [step] at hv
    split_ifs at hv
    · rw [settle_Data] at hv
      exact h key v hv hf
    · exact h key v hv hf
  | job =>
    apply settlementOf_step s _ key _
    simp only [step] at hv
    split at hv
    · exact h key v hv hf
    · rename_i j rest hjobs
      have hj := hq.1 j (by rw [hjobs]; exact List.mem_cons_self _ _)
      obtain ⟨r, o⟩ := j
      cases o with
      | rejected error =>
        cases r with
        | systemFile url callback => exact h key v hv hf
        | config callback => exact h key v hv hf
      | fulfilled data =>
        have hwrite : ∀ k0 : String, settlementOf s k0 = some (Settlement.fulfilled data) →
            read (write s.Data k0 data) key = some v →
            settlementOf s key = some (Settlement.fulfilled v) := by
          intro k0 hk0 hr
          by_cases hk : key = k0
          · subst hk
            rw [read_write_same] at hr
            cases hr
            exact hk0
          · rw [read_write_of_ne _ _ _ _ hk] at hr
            exact h key v hr hf
        cases r with
        | systemFile url callback =>
          simp only [runJob] at hv
          split_ifs at hv
          · exact h key v hv hf
          · exact hwrite url hj hv
        | config callback =>
          simp only [runJob] at hv
          split_ifs at hv
          · exact h key v hv hf
          · split at hv
            · exact hwrite "config" hj hv
            · exact hwrite "config" hj hv

theorem QueueInv_DataInv_run (s : State) (es : List Event) (hq : QueueInv s)
    (h : DataInv s) : QueueInv (run s es) ∧ DataInv (run s es) := by
  induction es generalizing s with
  | nil => exact ⟨hq, h⟩
  | cons e es ih => exact ih (step s e) (QueueInv_step s e hq) (DataInv_step s e hq h)

theorem QueueInv_of_reachable (s : State) (h : Reachable s) : QueueInv s := by
  obtain ⟨es, rfl⟩ := h
  refine (QueueInv_DataInv_run State.init es QueueInv_init ?_).1
  intro key v hv
  simp [State.init, read] at hv

theorem DataInv_of_reachable (s : State) (h : Reachable s) : DataInv s := by
  obtain ⟨es, rfl⟩ := h
  refine (QueueInv_DataInv_run State.init es QueueInv_init ?_).2
  intro key v hv
  simp [State.init, read] at hv

theorem runJob_keeps_entry (j : Job) (s : State) (k : String) (v : Value)
    (hj : settlementOf s j.reaction.key = some j.settlement) (hd : DataInv s)
    (h : read s.Data k = some v) :
    read (runJob j s).Data k = some v := by
  obtain ⟨r, o⟩ := j
  cases o with
  | rejected error =>
    cases r with
    | systemFile url callback => exact h
    | config callback => exact h
  | fulfilled data =>
    have hwrite : ∀ k0 : String, settlementOf s k0 = some (Settlement.fulfilled data) →
        ¬ holds s.Data k0 = true → read (write s.Data k0 data) k = some v := by
      intro k0 hk0 hh
      by_cases hk : k = k0
      · subst hk
        have hf := not_holds_falsy _ _ v h hh
        have := hd k v h hf
        rw [hk0] at this
        cases this
        exact read_write_same _ _ _
      · rw [read_write_of_ne _ _ _ _ hk]
        exact h
    cases r with
    | systemFile url callback =>
      simp only [runJob]
      split_ifs with hh
      · exact h
      · exact hwrite url hj hh
    | config callback =>
      simp only [runJob]
      split_ifs with hh
      · exact h
      · split
        · exact hwrite "config" hj hh
        · exact hwrite "config" hj hh

/-- C17 (as the code has it): in a reachable state, a payload stored under
`Data[K]` is not changed by any event other than a `set` for the key `K`
itself: not by a `get`, an answer of the transport or of the configuration
collaborator, a promise job (the completion of a `get` or of a configuration
read), or a `set` for another key. A `set` for a recognised name with truthy
data always replaces the payload stored under that name. -/
theorem stored_entry_changes_only_by_set (s : State) (e : Event) (k : String) (v : Value)
    (hreach : Reachable s) (h : read s.Data k = some v)
    (hne : ∀ data callback, e ≠ Event.set k data callback) :
    read (step s e).Data k = some v ∧
    (∀ name data callback, recognisedBySet name = true → data.truthy = true →
      read (step s (Event.set name data callback)).Data name = some data) := by
  constructor
  · cases e with
    | get name callback =>
      simp only [step, get_Data]
      exact h
    | set name data callback =>
      have hk : k ≠ name := by
        rintro rfl
        exact hne data callback rfl
      simp only [step]
      rcases set_Data_cases name data callback s with hD | ⟨_, hD⟩
      · rw [hD]
        exact h
      · rw [hD, read_write_of_ne _ _ _ _ hk]
        exact h
    | ajaxSuccess url data =>
      simp only [step]
      split_ifs
      · rw [settle_Data]
        exact h
      · exact h
    | ajaxError url error =>
      simp only [step]
      split_ifs
      · rw [settle_Data]
        exact h
      · exact h
    | configRead data =>
      simp only [step]
      split_ifs
      · rw [settle_Data]
        exact h
      · exact h
    | job =>
      simp only [step]
      split
      · exact h
      · rename_i j rest hjobs
        have hq := (QueueInv_of_reachable s hreach).1 j
          (by rw [hjobs]; exact List.mem_cons_self _ _)
        exact runJob_keeps_entry j _ k v hq (DataInv_of_reachable s hreach) h
  · intro name data callback hrec hd
    simp only [step]
    rw [set_state_Data name data callback s hrec hd, read_write_same]

theorem stored_entry_changes_only_by_set_witness :
    Reachable (run State.init [Event.get "modules" 0,
      Event.ajaxSuccess "/json/modules.json" (Value.str ""), Event.job, Event.get "modules" 1]) ∧
    read (run State.init [Event.get "modules" 0,
      Event.ajaxSuccess "/json/modules.json" (Value.str ""), Event.job,
      Event.get "modules" 1]).Data "/json/modules.json" = some (Value.str "") ∧
    read (step (run State.init [Event.get "modules" 0,
      Event.ajaxSuccess "/json/modules.json" (Value.str ""), Event.job,
      Event.get "modules" 1]) Event.job).Data "/json/modules.json" = some (Value.str "") :=
  ⟨⟨_, rfl⟩, by decide,
    (stored_entry_changes_only_by_set
      (run State.init [Event.get "modules" 0,
        Event.ajaxSuccess "/json/modules.json" (Value.str ""), Event.job,
        Event.get "modules" 1]) Event.job "/json/modules.json" (Value.str "")
      ⟨_, rfl⟩ (by decide) (fun data callback hcon => by cases hcon)).1⟩

/-- C17 (as stated) fails: after `set('modules', 1, cb)` has stored `1` under
`Data.modules`, a second `set('modules', 2, cb)` replaces it by `2`. -/
theorem set_overwrites_stored_payload :
    read (run State.init [Event.set "modules" (Value.num 1) 0]).Data "modules" =
      some (Value.num 1) ∧
    read (run State.init [Event.set "modules" (Value.num 1) 0,
      Event.set "modules" (Value.num 2) 1]).Data "modules" = some (Value.num 2) := by
  decide

/-! ## A first request and its answer -/

theorem getSystemFile_of_absent (url : String) (callback : Nat) (s : State)
    (h : read s.Promises url = none) :
    getSystemFile url callback s =
      { s with
        Promises := write s.Promises url
          { settled := none, reactions := [Reaction.systemFile url callback] },
        ajaxCalls := s.ajaxCalls ++ [url] } := by
  simp [getSystemFile, attach, h, read_write_same, write_write]

theorem getConfig_of_absent (callback : Nat) (s : State)
    (h : read s.Promises "config" = none) :
    getConfig callback s =
      { s with
        Promises := write s.Promises "config"
          { settled := none, reactions := [Reaction.config callback] },
        configReads := s.configReads + 1 } := by
  simp [getConfig, attach, h, read_write_same, write_write]

theorem getConfig_of_pending (callback : Nat) (s : State) (rs : List Reaction)
    (h : read s.Promises "config" = some { settled := none, reactions := rs }) :
    getConfig callback s =
      { s with
        Promises := write s.Promises "config"
          { settled := none, reactions := rs ++ [Reaction.config callback] } } := by
  simp [getConfig, attach, h]

theorem getConfig_of_settled (callback : Nat) (s : State) (o : Settlement)
    (rs : List Reaction)
    (h : read s.Promises "config" = some { settled := some o, reactions := rs }) :
    getConfig callback s =
      { s with
        jobs := s.jobs ++ [{ reaction := Reaction.config callback, settlement := o }] } := by
  simp [getConfig, attach, h]

theorem settle_of_pending (key : String) (o : Settlement) (s : State) (rs : List Reaction)
    (h : read s.Promises key = some { settled := none, reactions := rs }) :
    settle key o s =
      { s with
        Promises := write s.Promises key { settled := some o, reactions := [] },
        jobs := s.jobs ++ rs.map (fun r => { reaction := r, settlement := o }) } := by
  simp [settle, h]

theorem hasPromise_eq_false (s : State) (key : String) (h : hasPromise s key = false) :
    read s.Promises key = none :=
  isSome_eq_false h

theorem drain_of_no_jobs (s : State) (h : s.jobs = []) : drain s = s := by
  cases s
  simp only [] at h
  subst h
  rfl

/-- C16 (as the code has it): what stops a retrieval is a promise stored under
the locator, not an entry of `Data`. For a name other than `config` that
`set` recognises: a `get` adds no transport call when `Promises` holds a
promise under the locator of the name; and after `set(name, data, cb)` on a
loader that holds none, `get(name, cb2)` calls the transport for that
locator, and once the transport answers with a payload `p` the callback
receives `(null, p)`, whatever `data` was (`cb` itself was called by `set`
when `data` is truthy, and not at all when the argument check threw). -/
theorem get_after_set_still_retrieves (s : State) (name : String) (data p : Value)
    (callback callback2 : Nat)
    (hrec : recognisedBySet name = true) (hne : name ≠ "config") :
    (hasPromise s (locator name) = true →
      (get name callback2 s).state.ajaxCalls = s.ajaxCalls) ∧
    (hasPromise s (locator name) = false →
      (get name callback2 (set name data callback s).state).thrown = none ∧
      (get name callback2 (set name data callback s).state).state.ajaxCalls =
        s.ajaxCalls ++ [locator name] ∧
      (s.jobs = [] →
        (drain (step (get name callback2 (set name data callback s).state).state
          (Event.ajaxSuccess (locator name) p))).callbackCalls =
          s.callbackCalls ++
            (if data.truthy = true then [(callback, [Value.null])] else []) ++
            [(callback2, [Value.null, p])])) := by
  have hget := recognisedByGet_of_recognisedBySet name hrec
  constructor
  · intro hp
    have hp1 : (read s.Promises (locator name)).isSome = true := hp
    rw [get_of_recognised name callback2 s hget hne, getSystemFile_ajaxCalls, if_pos hp1]
  · intro hp
    have habs : read (set name data callback s).state.Promises (locator name) = none := by
      rw [set_Promises]
      exact hasPromise_eq_false s _ hp
    have hstate : (get name callback2 (set name data callback s).state).state = _ :=
      congrArg Outcome.state
        ((get_of_recognised name callback2 _ hget hne).trans
          (by rw [getSystemFile_of_absent _ callback2 _ habs]))
    refine ⟨?_, ?_, ?_⟩
    · rw [get_of_recognised name callback2 _ hget hne]
    · rw [hstate]
      simp only [set_ajaxCalls]
    · intro hjobs
      rw [hstate]
      have hmem : locator name ∈ (set name data callback s).state.ajaxCalls ++ [locator name] :=
        List.mem_append_right _ (List.mem_singleton_self _)
      simp only [step, hmem, if_true]
      rw [settle_of_pending _ _ _ [Reaction.systemFile (locator name) callback2]
        (by simp only []; rw [read_write_same])]
      simp only [List.map_cons, List.map_nil, set_jobs, hjobs, List.nil_append]
      simp only [drain, List.foldl_cons, List.foldl_nil]
      rw [runJob_systemFile_fulfilled_callbackCalls]
      cases hd : data.truthy with
      | true =>
        simp only [set_state_callbackCalls name data callback s hrec hd, if_true]
      | false =>
        rw [set_of_falsy name data callback s (recognisedBySet_ne_empty name hrec) hd]
        simp

theorem get_after_set_still_retrieves_witness :
    recognisedBySet "modules" = true ∧ "modules" ≠ "config" ∧
    hasPromise State.init (locator "modules") = false ∧
    (get "modules" 1 (set "modules" (Value.num 7) 0 State.init).state).state.ajaxCalls =
      State.init.ajaxCalls ++ [locator "modules"] :=
  ⟨by decide, by decide, by decide,
    ((get_after_set_still_retrieves State.init "modules" (Value.num 7) (Value.num 9) 0 1
      (by decide) (by decide)).2 (by decide)).2.1⟩

/-- C16 (as stated) fails: after `set('modules', 7, cb)` has stored `7`, a later
`get('modules', cb2)` calls the transport for `/json/modules.json`, and once
the transport answers `9` the callback receives `(null, 9)`, not `(null, 7)`. -/
theorem get_after_set_calls_transport :
    run State.init
      [Event.set "modules" (Value.num 7) 0, Event.get "modules" 1,
       Event.ajaxSuccess "/json/modules.json" (Value.num 9), Event.job] =
      { Promises := [("/json/modules.json",
          { settled := some (Settlement.fulfilled (Value.num 9)), reactions := [] })],
        Data := [("modules", Value.num 7), ("/json/modules.json", Value.num 9)],
        jobs := [],
        ajaxCalls := ["/json/modules.json"],
        configReads := 0,
        setAllowedCalls := [],
        callbackCalls := [(0, [Value.null]), (1, [Value.null, Value.num 9])] } := by
  decide

/-! ## `set('config', …)` followed by a configuration read -/

theorem get_config_eq (callback : Nat) (s : State) :
    get "config" callback s = { state := getConfig callback s, thrown := none } := by
  have h1 : regExpMatch FILES_JSON "config" = some "config".data := by decide
  rw [get_of_nonempty "config" callback s (by decide)]
  simp [getModule, h1]

theorem set_config_of_readable (d ls : Value) (callback : Nat) (s : State)
    (hd : d.truthy = true) (hls : d.getLocalStorage = some ls) :
    set "config" d callback s =
      { state :=
          { s with
            Data := write s.Data "config" d,
            callbackCalls := s.callbackCalls ++ [(callback, [Value.null])],
            setAllowedCalls := s.setAllowedCalls ++ [ls] },
        thrown := none } := by
  rw [set_of_recognised "config" d callback s (by decide) hd]
  simp [setConfig, hls]

theorem runJob_config_of_held (callback : Nat) (payload : Value) (s : State)
    (h : holds s.Data "config" = true) :
    runJob { reaction := Reaction.config callback,
             settlement := Settlement.fulfilled payload } s =
      { s with callbackCalls := s.callbackCalls ++ [(callback, [Value.null, payload])] } := by
  simp [runJob, h]

theorem config_read_of_held (callback : Nat) (payload : Value) (t : State)
    (habs : read t.Promises "config" = none) (hjobs : t.jobs = [])
    (hheld : holds t.Data "config" = true) :
    drain (step (getConfig callback t) (Event.configRead payload)) =
      { t with
        Promises := write t.Promises "config"
          { settled := some (Settlement.fulfilled payload), reactions := [] },
        configReads := t.configReads + 1,
        jobs := [],
        callbackCalls := t.callbackCalls ++ [(callback, [Value.null, payload])] } := by
  rw [getConfig_of_absent callback t habs]
  simp only [step, Nat.succ_pos, if_true]
  rw [settle_of_pending _ _ _ [Reaction.config callback] (by simp only []; rw [read_write_same])]
  simp only [List.map_cons, List.map_nil, hjobs, List.nil_append]
  simp only [drain, List.foldl_cons, List.foldl_nil]
  simp [runJob, hheld, write_write]

/-- C18 (as the code has it): let `set('config', d, cb)` store a truthy `d` (an
object, say) on a loader that has not read the configuration. A later
`get('config', cb2)` still issues one request to the configuration
collaborator, and `cb2` receives `(null, payload)` with the fetched payload;
but the handler finds `Data.config` set, so the fetched payload does not
replace `d` and `Storage.setAllowed` is not called again: the stored entry is
`d` and the only permission call is the one `set` made with
`d.localStorage`. -/
theorem fetched_config_keeps_value_of_set (s : State) (d ls payload : Value)
    (callback callback2 : Nat)
    (hd : d.truthy = true) (hls : d.getLocalStorage = some ls)
    (hp : hasPromise s "config" = false) (hjobs : s.jobs = []) :
    (get "config" callback2 (set "config" d callback s).state).state.configReads =
      s.configReads + 1 ∧
    read (drain (step (get "config" callback2 (set "config" d callback s).state).state
      (Event.configRead payload))).Data "config" = some d ∧
    (drain (step (get "config" callback2 (set "config" d callback s).state).state
      (Event.configRead payload))).setAllowedCalls = s.setAllowedCalls ++ [ls] ∧
    (drain (step (get "config" callback2 (set "config" d callback s).state).state
      (Event.configRead payload))).callbackCalls =
      s.callbackCalls ++ [(callback, [Value.null]), (callback2, [Value.null, payload])] := by
  have habs : read s.Promises "config" = none := hasPromise_eq_false s _ hp
  have hP := set_Promises "config" d callback s
  have hJ := set_jobs "config" d callback s
  have hD := set_state_Data "config" d callback s (by decide) hd
  have hC := set_state_callbackCalls "config" d callback s (by decide) hd
  have hR := set_configReads "config" d callback s
  have hA : (set "config" d callback s).state.setAllowedCalls = s.setAllowedCalls ++ [ls] := by
    rw [set_config_of_readable d ls callback s hd hls]
  generalize (set "config" d callback s).state = t at hP hJ hD hC hR hA
  have habs1 : read t.Promises "config" = none := by rw [hP]; exact habs
  have hheld : holds t.Data "config" = true :=
    holds_of_truthy _ _ d (by rw [hD, read_write_same]) hd
  rw [get_config_eq]
  simp only []
  rw [config_read_of_held callback2 payload t habs1 (by rw [hJ]; exact hjobs) hheld]
  refine ⟨?_, ?_, hA, ?_⟩
  · rw [getConfig_of_absent callback2 t habs1, ← hR]
  · simp only []
    rw [hD, read_write_same]
  · simp only [hC, List.append_assoc, List.singleton_append]

theorem fetched_config_keeps_value_of_set_witness :
    (Value.obj 1 (Value.bool false)).truthy = true ∧
    (Value.obj 1 (Value.bool false)).getLocalStorage = some (Value.bool false) ∧
    hasPromise State.init "config" = false ∧ State.init.jobs = [] ∧
    read (drain (step (get "config" 1
      (set "config" (Value.obj 1 (Value.bool false)) 0 State.init).state).state
      (Event.configRead (Value.obj 2 (Value.bool true))))).Data "config" =
      some (Value.obj 1 (Value.bool false)) :=
  ⟨by decide, by decide, by decide, by decide,
    (fetched_config_keeps_value_of_set State.init (Value.obj 1 (Value.bool false))
      (Value.bool false) (Value.obj 2 (Value.bool true)) 0 1
      (by decide) (by decide) (by decide) (by decide)).2.1⟩

/-- C18 (as stated) fails: after `set('config', {localStorage: false}, cb)`, a
`get('config', cb2)` issues one configuration request, and when it is
answered with `{localStorage: true}` the stored entry is still the object
written by `set` and `Storage.setAllowed` was only called with `false`. -/
theorem fetched_config_does_not_overwrite :
    run State.init
      [Event.set "config" (Value.obj 1 (Value.bool false)) 0, Event.get "config" 1,
       Event.configRead (Value.obj 2 (Value.bool true)), Event.job] =
      { Promises := [("config",
          { settled := some (Settlement.fulfilled (Value.obj 2 (Value.bool true))),
            reactions := [] })],
        Data := [("config", Value.obj 1 (Value.bool false))],
        jobs := [],
        ajaxCalls := [],
        configReads := 1,
        setAllowedCalls := [Value.bool false],
        callbackCalls :=
          [(0, [Value.null]), (1, [Value.null, Value.obj 2 (Value.bool true)])] } := by
  decide

/-! ## The configuration channel -/

theorem write_read_same {α : Type} (t : List (String × α)) (k : String) (v : α)
    (h : read t k = some v) : write t k v = t := by
  induction t with
  | nil => simp [read] at h
  | cons e rest ih =>
    obtain ⟨k0, v0⟩ := e
    by_cases hk : k0 = k
    · simp only [read, hk, if_true, Option.some.injEq] at h
      simp [write, hk, h]
    · simp only [read, hk, if_false] at h
      simp [write, hk, ih h]

theorem gets_config_pending (cbs : List Nat) (t : State) (rs : List Reaction)
    (h : read t.Promises "config" = some { settled := none, reactions := rs }) :
    run t (cbs.map (Event.get "config")) =
      { t with
        Promises := write t.Promises "config"
          { settled := none, reactions := rs ++ cbs.map Reaction.config } } := by
  induction cbs generalizing t rs with
  | nil =>
    simp only [List.map_nil, List.append_nil, run_nil]
    rw [write_read_same _ _ _ h]
  | cons c cs ih =>
    rw [List.map_cons, run_cons]
    simp only [step]
    rw [get_config_eq]
    simp only []
    rw [getConfig_of_pending c t rs h]
    rw [ih _ (rs ++ [Reaction.config c]) (by simp only []; rw [read_write_same])]
    simp only [write_write, List.map_cons, List.append_assoc, List.singleton_append]

theorem gets_config_absent (cbs : List Nat) (t : State) (hcbs : cbs ≠ [])
    (h : read t.Promises "config" = none) :
    run t (cbs.map (Event.get "config")) =
      { t with
        Promises := write t.Promises "config"
          { settled := none, reactions := cbs.map Reaction.config },
        configReads := t.configReads + 1 } := by
  cases cbs with
  | nil => exact absurd rfl hcbs
  | cons c cs =>
    rw [List.map_cons, run_cons]
    simp only [step]
    rw [get_config_eq]
    simp only []
    rw [getConfig_of_absent c t h]
    rw [gets_config_pending cs _ [Reaction.config c] (by simp only []; rw [read_write_same])]
    simp only [write_write, List.map_cons, List.singleton_append]

theorem gets_config_settled (cbs : List Nat) (t : State) (o : Settlement)
    (rs : List Reaction)
    (h : read t.Promises "config" = some { settled := some o, reactions := rs }) :
    run t (cbs.map (Event.get "config")) =
      { t with
        jobs := t.jobs ++
          cbs.map (fun c => { reaction := Reaction.config c, settlement := o }) } := by
  induction cbs generalizing t with
  | nil => simp [run_nil]
  | cons c cs ih =>
    rw [List.map_cons, run_cons]
    simp only [step]
    rw [get_config_eq]
    simp only []
    rw [getConfig_of_settled c t o rs h]
    rw [ih _ (by simp only []; exact h)]
    simp only [List.map_cons, List.append_assoc, List.singleton_append]

theorem runJobs_config_held (cbs : List Nat) (payload : Value) (t : State)
    (h : holds t.Data "config" = true) :
    (cbs.map (fun c => Job.mk (Reaction.config c) (Settlement.fulfilled payload))).foldl
      (fun u j => runJob j u) t =
      { t with
        callbackCalls := t.callbackCalls ++
          cbs.map (fun c => (c, [Value.null, payload])) } := by
  induction cbs generalizing t with
  | nil => simp
  | cons c cs ih =>
    rw [List.map_cons, List.foldl_cons, runJob_config_of_held c payload t h]
    rw [ih _ (by simp only []; exact h)]
    simp only [List.map_cons, List.append_assoc, List.singleton_append]

theorem runJob_config_first (c : Nat) (payload ls : Value) (t : State)
    (h : holds t.Data "config" = false) (hls : payload.getLocalStorage = some ls) :
    runJob { reaction := Reaction.config c,
             settlement := Settlement.fulfilled payload } t =
      { t with
        Data := write t.Data "config" payload,
        setAllowedCalls := t.setAllowedCalls ++ [ls],
        callbackCalls := t.callbackCalls ++ [(c, [Value.null, payload])] } := by
  simp [runJob, h, hls]

theorem holds_write_truthy (table : List (String × Value)) (key : String) (v : Value)
    (hv : v.truthy = true) : holds (write table key v) key = true := by
  simp [holds, read_write_same, hv]

theorem drain_eq (s : State) :
    drain s = s.jobs.foldl (fun u j => runJob j u) { s with jobs := [] } := rfl

theorem config_first_answer (s : State) (cbs : List Nat) (payload ls : Value)
    (hp : read s.Promises "config" = none) (hd : holds s.Data "config" = false)
    (ht : payload.truthy = true) (hls : payload.getLocalStorage = some ls)
    (hjobs : s.jobs = []) (hcbs : cbs ≠ []) :
    drain (run s (cbs.map (Event.get "config") ++ [Event.configRead payload])) =
      { s with
        Promises := write s.Promises "config"
          { settled := some (Settlement.fulfilled payload), reactions := [] },
        Data := write s.Data "config" payload,
        jobs := [],
        configReads := s.configReads + 1,
        setAllowedCalls := s.setAllowedCalls ++ [ls],
        callbackCalls := s.callbackCalls ++
          cbs.map (fun c => (c, [Value.null, payload])) } := by
  rw [run_append, gets_config_absent cbs s hcbs hp, run_cons, run_nil]
  simp only [step, Nat.succ_pos, if_true]
  rw [settle_of_pending _ _ _ (cbs.map Reaction.config) (by simp only []; rw [read_write_same])]
  simp only [hjobs, List.nil_append, write_write, List.map_map]
  cases cbs with
  | nil => exact absurd rfl hcbs
  | cons c cs =>
    rw [drain_eq]
    simp only [List.map_cons, List.foldl_cons, Function.comp]
    rw [runJob_config_first c payload ls _ (by simp only []; exact hd) hls]
    have hfold := runJobs_config_held cs payload
      { s with
        Promises := write s.Promises "config"
          { settled := some (Settlement.fulfilled payload), reactions := [] },
        Data := write s.Data "config" payload,
        jobs := [],
        configReads := s.configReads + 1,
        setAllowedCalls := s.setAllowedCalls ++ [ls],
        callbackCalls := s.callbackCalls ++ [(c, [Value.null, payload])] }
      (holds_write_truthy _ _ _ ht)
    refine Eq.trans hfold ?_
    simp only [List.append_assoc, List.singleton_append]

theorem config_first_answer_held (s : State) (cbs : List Nat) (payload : Value)
    (hp : read s.Promises "config" = none) (hd : holds s.Data "config" = true)
    (hjobs : s.jobs = []) (hcbs : cbs ≠ []) :
    drain (run s (cbs.map (Event.get "config") ++ [Event.configRead payload])) =
      { s with
        Promises := write s.Promises "config"
          { settled := some (Settlement.fulfilled payload), reactions := [] },
        jobs := [],
        configReads := s.configReads + 1,
        callbackCalls := s.callbackCalls ++
          cbs.map (fun c => (c, [Value.null, payload])) } := by
  rw [run_append, gets_config_absent cbs s hcbs hp, run_cons, run_nil]
  simp only [step, Nat.succ_pos, if_true]
  rw [settle_of_pending _ _ _ (cbs.map Reaction.config) (by simp only []; rw [read_write_same])]
  simp only [hjobs, List.nil_append, write_write, List.map_map]
  rw [drain_eq]
  have hfold := runJobs_config_held cbs payload
    { s with
      Promises := write s.Promises "config"
        { settled := some (Settlement.fulfilled payload), reactions := [] },
      jobs := [],
      configReads := s.configReads + 1 }
    hd
  exact hfold

theorem config_later_gets (t : State) (cbs : List Nat) (payload : Value)
    (rs : List Reaction)
    (hp : read t.Promises "config" =
      some { settled := some (Settlement.fulfilled payload), reactions := rs })
    (hd : holds t.Data "config" = true) (hjobs : t.jobs = []) :
    drain (run t (cbs.map (Event.get "config"))) =
      { t with
        callbackCalls := t.callbackCalls ++
          cbs.map (fun c => (c, [Value.null, payload])) } := by
  rw [gets_config_settled cbs t _ rs hp, drain_eq]
  simp only [hjobs, List.nil_append]
  have hfold := runJobs_config_held cbs payload { t with jobs := [] } hd
  rw [hfold]

theorem config_read_scenario (s : State) (cbs1 cbs2 : List Nat) (payload ls : Value)
    (hp : read s.Promises "config" = none) (hd : holds s.Data "config" = false)
    (ht : payload.truthy = true) (hls : payload.getLocalStorage = some ls)
    (hjobs : s.jobs = []) (hcbs : cbs1 ≠ []) :
    configScenario s cbs1 cbs2 payload =
      { s with
        Promises := write s.Promises "config"
          { settled := some (Settlement.fulfilled payload), reactions := [] },
        Data := write s.Data "config" payload,
        jobs := [],
        configReads := s.configReads + 1,
        setAllowedCalls := s.setAllowedCalls ++ [ls],
        callbackCalls := s.callbackCalls ++
          (cbs1 ++ cbs2).map (fun c => (c, [Value.null, payload])) } := by
  unfold configScenario
  rw [config_first_answer s cbs1 payload ls hp hd ht hls hjobs hcbs]
  rw [config_later_gets _ cbs2 payload []
    (by simp only []; rw [read_write_same])
    (by simp only []; exact holds_write_truthy _ _ _ ht) rfl]
  simp only [List.map_append, List.append_assoc]

theorem config_read_scenario_held (s : State) (cbs1 cbs2 : List Nat) (payload : Value)
    (hp : read s.Promises "config" = none) (hd : holds s.Data "config" = true)
    (hjobs : s.jobs = []) (hcbs : cbs1 ≠ []) :
    configScenario s cbs1 cbs2 payload =
      { s with
        Promises := write s.Promises "config"
          { settled := some (Settlement.fulfilled payload), reactions := [] },
        jobs := [],
        configReads := s.configReads + 1,
        callbackCalls := s.callbackCalls ++
          (cbs1 ++ cbs2).map (fun c => (c, [Value.null, payload])) } := by
  unfold configScenario
  rw [config_first_answer_held s cbs1 payload hp hd hjobs hcbs]
  rw [config_later_gets _ cbs2 payload []
    (by simp only []; rw [read_write_same])
    (by simp only []; exact hd) rfl]
  simp only [List.map_append, List.append_assoc]

theorem attach_configReads (key : String) (r : Reaction) (s : State) :
    (attach key r s).configReads = s.configReads := by
  unfold attach
  split
  · rfl
  · split <;> rfl

theorem settle_configReads (key : String) (o : Settlement) (s : State) :
    (settle key o s).configReads = s.configReads := by
  unfold settle
  split
  · rfl
  · split <;> rfl

theorem getSystemFile_configReads (url : String) (callback : Nat) (s : State) :
    (getSystemFile url callback s).configReads = s.configReads := by
  unfold getSystemFile
  rw [attach_configReads]
  cases read s.Promises url <;> rfl

theorem getConfig_configReads (callback : Nat) (s : State) :
    (getConfig callback s).configReads =
      if hasPromise s "config" = true then s.configReads else s.configReads + 1 := by
  unfold getConfig hasPromise
  rw [attach_configReads]
  cases read s.Promises "config" <;> simp

theorem runJob_configReads (j : Job) (s : State) :
    (runJob j s).configReads = s.configReads := by
  unfold runJob
  split
  · simp only []
    split <;> rfl
  · rfl
  · split
    · rfl
    · simp only []
      split <;> rfl
  · rfl

theorem ConfigInv_of_same (s t : State) (h1 : t.configReads = s.configReads)
    (h2 : hasPromise t "config" = hasPromise s "config") (h : ConfigInv s) :
    ConfigInv t := by
  unfold ConfigInv at h ⊢
  rw [h1, h2]
  exact h

theorem ConfigInv_getConfig (callback : Nat) (s : State) (h : ConfigInv s) :
    ConfigInv (getConfig callback s) ∧ (getConfig callback s).configReads = 1 := by
  unfold ConfigInv at h ⊢
  have hp : hasPromise (getConfig callback s) "config" = true := by
    rw [hasPromise_getConfig]
    simp
  rw [hp, getConfig_configReads]
  by_cases hs : hasPromise s "config" = true
  · rw [if_pos hs] at h
    simp [hs, h]
  · rw [if_neg hs] at h
    simp [hs, h]

theorem ConfigInv_step (s : State) (e : Event) (h : ConfigInv s) :
    ConfigInv (step s e) := by
  cases e with
  | get name callback =>
    simp only [step]
    by_cases hrec : recognisedByGet name = true
    · by_cases hne : name = "config"
      · subst hne
        rw [get_config_eq]
        exact (ConfigInv_getConfig callback s h).1
      · rw [get_of_recognised name callback s hrec hne]
        refine ConfigInv_of_same s _ (getSystemFile_configReads _ _ _) ?_ h
        rw [hasPromise_getSystemFile]
        have := locator_ne_config name hrec
        simp [Ne.symm this]
    · rw [get_throw_keeps_state name callback s (by simpa using hrec)]
      exact h
  | set name data callback =>
    exact ConfigInv_of_same s _ (set_configReads name data callback s)
      (by simp only [step, hasPromise, set_Promises]) h
  | ajaxSuccess url data =>
    simp only [step]
    split_ifs
    · exact ConfigInv_of_same s _ (settle_configReads _ _ s) (hasPromise_settle _ _ s _) h
    · exact h
  | ajaxError url error =>
    simp only [step]
    split_ifs
    · exact ConfigInv_of_same s _ (settle_configReads _ _ s) (hasPromise_settle _ _ s _) h
    · exact h
  | configRead data =>
    simp only [step]
    split_ifs
    · exact ConfigInv_of_same s _ (settle_configReads _ _ s) (hasPromise_settle _ _ s _) h
    · exact h
  | job =>
    simp only [step]
    split
    · exact h
    · exact ConfigInv_of_same s _ (by rw [runJob_configReads])
        (by simp only [hasPromise, runJob_Promises]) h

theorem ConfigInv_run (s : State) (es : List Event) (h : ConfigInv s) :
    ConfigInv (run s es) := by
  induction es generalizing s with
  | nil => exact h
  | cons e es ih => exact ih (step s e) (ConfigInv_step s e h)

theorem ConfigInv_of_reachable (s : State) (h : Reachable s) : ConfigInv s := by
  obtain ⟨es, rfl⟩ := h
  exact ConfigInv_run State.init es (by simp [ConfigInv, State.init, hasPromise, read])

theorem hasPromise_step (s : State) (e : Event) (key : String)
    (h : hasPromise s key = true) : hasPromise (step s e) key = true := by
  cases e with
  | get name callback =>
    simp only [step]
    rcases get_state_cases name callback s with h1 | h1 | h1 <;> rw [h1]
    · exact h
    · rw [hasPromise_getConfig, h]
      rfl
    · rw [hasPromise_getSystemFile, h]
      rfl
  | set name data callback =>
    simp only [step, hasPromise, set_Promises]
    exact h
  | ajaxSuccess url data =>
    simp only [step]
    split_ifs
    · rw [hasPromise_settle]
      exact h
    · exact h
  | ajaxError url error =>
    simp only [step]
    split_ifs
    · rw [hasPromise_settle]
      exact h
    · exact h
  | configRead data =>
    simp only [step]
    split_ifs
    · rw [hasPromise_settle]
      exact h
    · exact h
  | job =>
    simp only [step]
    split
    · exact h
    · simp only [hasPromise, runJob_Promises]
      exact h

theorem hasPromise_run (s : State) (es : List Event) (key : String)
    (h : hasPromise s key = true) : hasPromise (run s es) key = true := by
  induction es generalizing s with
  | nil => exact h
  | cons e es ih => exact ih (step s e) (hasPromise_step s e key h)

theorem runJob_frame (j : Job) (t : State) (P : List (String × PromiseState)) (n : Nat) :
    runJob j { t with Promises := P, configReads := n } =
      { runJob j t with Promises := P, configReads := n } := by
  obtain ⟨r, o⟩ := j
  cases r with
  | systemFile url callback =>
    cases o with
    | fulfilled data =>
      simp only [runJob]
      split_ifs <;> rfl
    | rejected error => rfl
  | config callback =>
    cases o with
    | fulfilled data =>
      simp only [runJob]
      split_ifs
      · rfl
      · split <;> rfl
    | rejected error => rfl

theorem foldl_runJob_frame (js : List Job) (t : State) (P : List (String × PromiseState))
    (n : Nat) :
    js.foldl (fun u j => runJob j u) { t with Promises := P, configReads := n } =
      { js.foldl (fun u j => runJob j u) t with Promises := P, configReads := n } := by
  induction js generalizing t with
  | nil => rfl
  | cons j js ih => rw [List.foldl_cons, runJob_frame, ih, List.foldl_cons]

theorem foldl_runJob_fields (js : List Job) (t : State) :
    (js.foldl (fun u j => runJob j u) t).Promises = t.Promises ∧
    (js.foldl (fun u j => runJob j u) t).jobs = t.jobs ∧
    (js.foldl (fun u j => runJob j u) t).configReads = t.configReads := by
  induction js generalizing t with
  | nil => exact ⟨rfl, rfl, rfl⟩
  | cons j js ih =>
    rw [List.foldl_cons]
    obtain ⟨h1, h2, h3⟩ := ih (runJob j t)
    exact ⟨h1.trans (runJob_Promises j t), h2.trans (runJob_jobs j t),
      h3.trans (runJob_configReads j t)⟩

theorem drain_Promises (s : State) : (drain s).Promises = s.Promises :=
  (foldl_runJob_fields s.jobs { s with jobs := [] }).1

theorem drain_jobs (s : State) : (drain s).jobs = [] :=
  (foldl_runJob_fields s.jobs { s with jobs := [] }).2.1

theorem drain_configReads (s : State) : (drain s).configReads = s.configReads :=
  (foldl_runJob_fields s.jobs { s with jobs := [] }).2.2

theorem runJob_other_key (j : Job) (t : State) (h : j.reaction.key ≠ "config") :
    (runJob j t).setAllowedCalls = t.setAllowedCalls ∧
    read (runJob j t).Data "config" = read t.Data "config" := by
  obtain ⟨r, o⟩ := j
  cases r with
  | systemFile url callback =>
    have hu : "config" ≠ url := fun hcon => h hcon.symm
    cases o with
    | fulfilled data =>
      simp only [runJob]
      split_ifs
      · exact ⟨rfl, rfl⟩
      · exact ⟨rfl, read_write_of_ne _ _ _ _ hu⟩
    | rejected error => exact ⟨rfl, rfl⟩
  | config callback => exact absurd rfl h

theorem foldl_runJob_other_key (js : List Job) (t : State)
    (h : ∀ j ∈ js, j.reaction.key ≠ "config") :
    (js.foldl (fun u j => runJob j u) t).setAllowedCalls = t.setAllowedCalls ∧
    read (js.foldl (fun u j => runJob j u) t).Data "config" = read t.Data "config" := by
  induction js generalizing t with
  | nil => exact ⟨rfl, rfl⟩
  | cons j js ih =>
    rw [List.foldl_cons]
    obtain ⟨h1, h2⟩ := ih (runJob j t) (fun k hk => h k (List.mem_cons_of_mem _ hk))
    obtain ⟨h3, h4⟩ := runJob_other_key j t (h j (List.mem_cons_self _ _))
    exact ⟨h1.trans h3, h2.trans h4⟩

theorem jobs_other_key_of_reachable (s : State) (hreach : Reachable s)
    (hp : hasPromise s "config" = false) : ∀ j ∈ s.jobs, j.reaction.key ≠ "config" := by
  intro j hj hkey
  have h := (QueueInv_of_reachable s hreach).1 j hj
  rw [hkey] at h
  have habs := hasPromise_eq_false s _ hp
  simp [settlementOf, habs] at h

theorem holds_congr (t u : List (String × Value)) (key : String)
    (h : read t key = read u key) : holds t key = holds u key := by
  simp [holds, h]

theorem run_config_first (s : State) (cbs : List Nat) (payload : Value)
    (hp : read s.Promises "config" = none) (hcbs : cbs ≠ []) :
    run s (cbs.map (Event.get "config") ++ [Event.configRead payload]) =
      { s with
        Promises := write s.Promises "config"
          { settled := some (Settlement.fulfilled payload), reactions := [] },
        configReads := s.configReads + 1,
        jobs := s.jobs ++
          cbs.map (fun c => Job.mk (Reaction.config c) (Settlement.fulfilled payload)) } := by
  rw [run_append, gets_config_absent cbs s hcbs hp, run_cons, run_nil]
  simp only [step, Nat.succ_pos, if_true]
  rw [settle_of_pending _ _ _ (cbs.map Reaction.config) (by simp only []; rw [read_write_same])]
  simp only [write_write, List.map_map]
  rfl

theorem drain_config_first (s : State) (cbs : List Nat) (payload : Value)
    (hp : read s.Promises "config" = none) (hcbs : cbs ≠ []) :
    drain (run s (cbs.map (Event.get "config") ++ [Event.configRead payload])) =
      drain (run (drain s) (cbs.map (Event.get "config") ++ [Event.configRead payload])) := by
  rw [run_config_first s cbs payload hp hcbs,
    run_config_first (drain s) cbs payload (by rw [drain_Promises]; exact hp) hcbs]
  have hdP := drain_Promises s
  have hdj := drain_jobs s
  have hdc := drain_configReads s
  have hfold : s.jobs.foldl (fun u j => runJob j u)
      { s with
        Promises := write s.Promises "config"
          { settled := some (Settlement.fulfilled payload), reactions := [] },
        configReads := s.configReads + 1,
        jobs := [] } =
      { drain s with
        Promises := write s.Promises "config"
          { settled := some (Settlement.fulfilled payload), reactions := [] },
        configReads := s.configReads + 1 } :=
    foldl_runJob_frame s.jobs { s with jobs := [] } _ _
  generalize drain s = d at hdP hdj hdc hfold ⊢
  obtain ⟨dP, dD, dj, da, dc, dsa, dcb⟩ := d
  simp only [] at hdP hdj hdc hfold
  subst hdP hdj hdc
  show List.foldl _ _ (s.jobs ++ _) = List.foldl _ _ ([] ++ _)
  rw [List.foldl_append, hfold]
  rfl

theorem configScenario_drain (s : State) (waiting later : List Nat) (payload : Value)
    (hp : read s.Promises "config" = none) (hw : waiting ≠ []) :
    configScenario s waiting later payload =
      configScenario (drain s) waiting later payload := by
  unfold configScenario
  rw [drain_config_first s waiting payload hp hw]

/-- C13 (as the code has it): in every reachable state the configuration
collaborator has been asked at most once, and exactly once after any
sequence of events that contains a `get('config', cb)`. On a loader without
a configuration promise, let N >= 1 callers call `get('config', cb)`, let
the collaborator answer with `payload`, and let further callers call
`get('config', cb)` afterwards. If `Data.config` is not truthy and the
payload is truthy (an object, say), every callback receives
`(null, payload)`, in the order of the calls, `Data.config` becomes
`payload`, and `Storage.setAllowed` is called once, with
`payload.localStorage`. If `Data.config` is truthy already (stored by `set`),
every callback receives `(null, payload)` as well, but the stored entry
stays and `Storage.setAllowed` is not called. -/
theorem config_is_read_once (s : State) (hreach : Reachable s) :
    s.configReads ≤ 1 ∧
    (∀ events : List Event, (∃ callback, Event.get "config" callback ∈ events) →
      (run s events).configReads = 1) ∧
    (hasPromise s "config" = false →
      ∀ (waiting later : List Nat) (payload : Value), waiting ≠ [] →
        (holds s.Data "config" = false → payload.truthy = true →
          ∀ localStorage, payload.getLocalStorage = some localStorage →
            (configScenario s waiting later payload).configReads = 1 ∧
            (configScenario s waiting later payload).callbackCalls =
              (drain s).callbackCalls ++
                (waiting ++ later).map (fun c => (c, [Value.null, payload])) ∧
            (configScenario s waiting later payload).setAllowedCalls =
              s.setAllowedCalls ++ [localStorage] ∧
            read (configScenario s waiting later payload).Data "config" = some payload) ∧
        (holds s.Data "config" = true →
          (configScenario s waiting later payload).configReads = 1 ∧
          (configScenario s waiting later payload).callbackCalls =
            (drain s).callbackCalls ++
              (waiting ++ later).map (fun c => (c, [Value.null, payload])) ∧
          (configScenario s waiting later payload).setAllowedCalls = s.setAllowedCalls ∧
          read (configScenario s waiting later payload).Data "config" =
            read s.Data "config")) := by
  have hinv := ConfigInv_of_reachable s hreach
  refine ⟨?_, ?_, ?_⟩
  · unfold ConfigInv at hinv
    rw [hinv]
    split_ifs <;> simp
  · rintro events ⟨callback, hmem⟩
    obtain ⟨es, fs, rfl⟩ := List.append_of_mem hmem
    have h1 : hasPromise (run s (es ++ Event.get "config" callback :: fs)) "config" = true := by
      rw [run_append, run_cons]
      apply hasPromise_run
      simp only [step]
      rw [get_config_eq, hasPromise_getConfig]
      simp
    have h2 := ConfigInv_run s (es ++ Event.get "config" callback :: fs) hinv
    unfold ConfigInv at h2
    rw [h2, if_pos h1]
  · intro hp waiting later payload hw
    have h0 : s.configReads = 0 := by
      unfold ConfigInv at hinv
      rw [hinv, hp]
      rfl
    have habs := hasPromise_eq_false s _ hp
    have hother := foldl_runJob_other_key s.jobs { s with jobs := [] }
      (jobs_other_key_of_reachable s hreach hp)
    have hA : (drain s).setAllowedCalls = s.setAllowedCalls := hother.1
    have hD : read (drain s).Data "config" = read s.Data "config" := hother.2
    have habs1 : read (drain s).Promises "config" = none := by
      rw [drain_Promises]
      exact habs
    rw [configScenario_drain s waiting later payload habs hw]
    constructor
    · intro hd ht localStorage hls
      rw [config_read_scenario (drain s) waiting later payload localStorage habs1
        (by rw [holds_congr _ _ _ hD]; exact hd) ht hls (drain_jobs s) hw]
      refine ⟨?_, rfl, ?_, ?_⟩
      · simp only [drain_configReads, h0]
      · simp only [hA]
      · simp only []
        rw [read_write_same]
    · intro hd
      rw [config_read_scenario_held (drain s) waiting later payload habs1
        (by rw [holds_congr _ _ _ hD]; exact hd) (drain_jobs s) hw]
      refine ⟨?_, rfl, hA, hD⟩
      simp only [drain_configReads, h0]

theorem config_is_read_once_witness :
    Reachable State.init ∧
    (run State.init [Event.get "config" 0, Event.configRead (Value.obj 1 (Value.bool true)),
      Event.job, Event.get "config" 1]).configReads = 1 ∧
    (configScenario State.init [0, 1] [2] (Value.obj 1 (Value.bool true))).setAllowedCalls =
      State.init.setAllowedCalls ++ [Value.bool true] :=
  ⟨⟨[], rfl⟩,
    (config_is_read_once State.init ⟨[], rfl⟩).2.1
      [Event.get "config" 0, Event.configRead (Value.obj 1 (Value.bool true)),
       Event.job, Event.get "config" 1] ⟨0, by decide⟩,
    ((((config_is_read_once State.init ⟨[], rfl⟩).2.2 (by decide)
      [0, 1] [2] (Value.obj 1 (Value.bool true)) (by decide)).1 (by decide) (by decide)
      (Value.bool true) (by decide))).2.2.1⟩

/-- C13 (as stated) fails. With the payload `0` and two waiting callers,
`Storage.setAllowed` is called once per waiting caller (twice, with
`undefined`). With the payload `null` the handler throws on
`data.localStorage` and no callback is called. And after
`set('config', {localStorage: false}, cb)` the read calls neither
`Storage.setAllowed` nor stores its payload `{localStorage: true}`. -/
theorem config_read_flag_depends_on_payload_and_state :
    (run State.init [Event.get "config" 0, Event.get "config" 1,
      Event.configRead (Value.num 0), Event.job, Event.job]).setAllowedCalls =
      [Value.undefined, Value.undefined] ∧
    (run State.init [Event.get "config" 0, Event.configRead Value.null,
      Event.job]).callbackCalls = [] ∧
    (run State.init [Event.get "config" 0, Event.configRead Value.null,
      Event.job]).jobs = [] ∧
    (run State.init [Event.set "config" (Value.obj 1 (Value.bool false)) 0,
      Event.get "config" 1, Event.configRead (Value.obj 2 (Value.bool true)),
      Event.job]).setAllowedCalls = [Value.bool false] := by
  decide

/-! ## Locators of different names -/

theorem sandwich_inj (p q a b : String) (h : p ++ a ++ q = p ++ b ++ q) : a = b := by
  have h1 := congrArg String.data h
  simp only [String.data_append, List.append_assoc] at h1
  have h2 := List.append_cancel_right (List.append_cancel_left h1)
  exact String.ext h2

theorem html_ne_json (a b : String) :
    "/html/fs/" ++ a ++ ".html" ≠ "/json/" ++ b ++ ".json" := by
  intro h
  have h1 := congrArg String.data h
  simp only [String.data_append, List.append_assoc] at h1
  simp at h1

theorem locator_of_not_root (name : String) (hrec : recognisedByGet name = true)
    (hroot : (matchesHTML name && matchesRoot name) = false) :
    locator name = "/html/fs/" ++ name ++ ".html" ∨
    locator name = "/json/" ++ name ++ ".json" := by
  cases hH : matchesHTML name with
  | true =>
    have hR : matchesRoot name = false := by simpa [hH] using hroot
    exact Or.inl (locator_fs name hH hR)
  | false =>
    have hJ : matchesJSON name = true := by simpa [recognisedByGet, hH] using hrec
    exact Or.inr (locator_json name hH hJ)

/-- C19 (as the code has it): two distinct names that `get` accepts and that are
not resolved by the root rule of `getPath` have distinct locators, and so
have any two distinct names among the listed names that `get` accepts
(`modules`, `ext`, `file`, `path`, `link`, `pathLink`, `config-tmpl`). -/
theorem locator_injective_off_root (a b : String)
    (ha : recognisedByGet a = true) (hb : recognisedByGet b = true) (hab : a ≠ b)
    (hra : (matchesHTML a && matchesRoot a) = false)
    (hrb : (matchesHTML b && matchesRoot b) = false) :
    locator a ≠ locator b ∧
    (∀ x ∈ ["modules", "ext", "file", "path", "link", "pathLink", "config-tmpl"],
      ∀ y ∈ ["modules", "ext", "file", "path", "link", "pathLink", "config-tmpl"],
        x ≠ y → recognisedByGet x = true ∧ locator x ≠ locator y) := by
  refine ⟨?_, by decide⟩
  intro h
  rcases locator_of_not_root a ha hra with h1 | h1 <;>
    rcases locator_of_not_root b hb hrb with h2 | h2 <;> rw [h1, h2] at h
  · exact hab (sandwich_inj _ _ a b h)
  · exact html_ne_json a b h
  · exact html_ne_json b a h.symm
  · exact hab (sandwich_inj _ _ a b h)

theorem locator_injective_off_root_witness :
    recognisedByGet "file" = true ∧ recognisedByGet "xext" = true ∧ "file" ≠ "xext" ∧
    locator "file" ≠ locator "xext" :=
  ⟨by decide, by decide, by decide,
    (locator_injective_off_root "file" "xext" (by decide) (by decide) (by decide)
      (by decide) (by decide)).1⟩

/-- C19 (as stated) fails: `fileconfig` and `fs/fileconfig-tmpl` are two distinct
names, neither is `config`, `get` accepts both, and both are resolved to the
locator `/html/fs/fileconfig.html` (the first by the filesystem rule, the
second by the root rule). -/
theorem locator_collision :
    "fileconfig" ≠ "fs/fileconfig-tmpl" ∧
    "fileconfig" ≠ "config" ∧ "fs/fileconfig-tmpl" ≠ "config" ∧
    (get "fileconfig" 0 State.init).thrown = none ∧
    (get "fs/fileconfig-tmpl" 0 State.init).thrown = none ∧
    locator "fileconfig" = "/html/fs/fileconfig.html" ∧
    locator "fs/fileconfig-tmpl" = "/html/fs/fileconfig.html" ∧
    (run State.init [Event.get "fileconfig" 0, Event.get "fs/fileconfig-tmpl" 1]).ajaxCalls =
      ["/html/fs/fileconfig.html"] := by
  decide

/-! ## The batch coordinator -/

theorem settleSlot_getElem? (slots : List (Option UnitResult)) (k i : Nat)
    (r : UnitResult) :
    (settleSlot slots k r)[i]? =
      if k = i ∧ slots[i]? = some none then some (some r) else slots[i]? := by
  unfold settleSlot
  by_cases hk : k = i
  · subst hk
    cases h : slots[k]? with
    | none => simp [h]
    | some o =>
      cases o with
      | none =>
        have hlt : k < slots.length := (List.getElem?_eq_some.1 h).1
        simp [List.getElem?_set, hlt]
      | some r0 => simp [h]
  · have hne : ¬ (k = i ∧ slots[i]? = some none) := fun hcon => hk hcon.1
    rw [if_neg hne]
    split
    · rw [List.getElem?_set_ne hk]
    · rfl

theorem foldl_settleSlot_getElem? (us : List Nat) (log : List (Nat × List Value))
    (slots : List (Option UnitResult)) (i : Nat) :
    (log.foldl (fun sl e => settleSlot sl (us.indexOf e.1) (unitResult e.2)) slots)[i]? =
      match slots[i]? with
      | some none =>
        some ((log.find? (fun e => us.indexOf e.1 == i)).map (fun e => unitResult e.2))
      | other => other := by
  induction log generalizing slots with
  | nil =>
    simp only [List.foldl_nil, List.find?_nil, Option.map_none']
    cases h : slots[i]? with
    | none => rfl
    | some o => cases o <;> rfl
  | cons e rest ih =>
    rw [List.foldl_cons, ih, settleSlot_getElem?]
    by_cases hk : us.indexOf e.1 = i
    · cases h : slots[i]? with
      | none => simp
      | some o =>
        cases o with
        | none => simp [hk, List.find?_cons]
        | some r0 => simp
    · have hne : ¬ (us.indexOf e.1 = i ∧ slots[i]? = some none) := fun hcon => hk hcon.1
      rw [if_neg hne]
      cases h : slots[i]? with
      | none => rfl
      | some o =>
        cases o with
        | none => simp [hk, List.find?_cons]
        | some r0 => rfl

theorem indexOf_beq_eq (us : List Nat) (hnd : us.Nodup) (i : Nat) (u : Nat)
    (hu : us[i]? = some u) (x : Nat) : (us.indexOf x == i) = (x == u) := by
  obtain ⟨hlt, hget⟩ := List.getElem?_eq_some.1 hu
  by_cases hx : x = u
  · subst hx
    have : us.indexOf x = i := by
      rw [← hget]
      exact List.indexOf_getElem hnd i hlt
    simp [this]
  · have : us.indexOf x ≠ i := by
      intro hcon
      apply hx
      have hlt2 : us.indexOf x < us.length := hcon ▸ hlt
      have := List.getElem_indexOf hlt2
      rw [← this, ← hget]
      congr 1
    simp [this, hx]

theorem collect_map_ok (results : List Value) :
    collect (results.map (fun r => some (UnitResult.ok r))) =
      some (Report.success results) := by
  induction results with
  | nil => rfl
  | cons r rest ih => simp [collect, ih]

theorem unitResult_null (r : Value) : unitResult [Value.null, r] = UnitResult.ok r := by
  simp [unitResult, Value.truthy]

theorem joinLog_of_calls (us : List Nat) (results : List Value)
    (log : List (Nat × List Value)) (hnd : us.Nodup) (hlen : results.length = us.length)
    (hcalls : us.map (fun u => log.find? (fun e => e.1 == u)) =
      List.zipWith (fun u r => some (u, [Value.null, r])) us results) :
    joinLog us log = results.map (fun r => some (UnitResult.ok r)) := by
  apply List.ext_getElem?
  intro i
  unfold joinLog
  rw [foldl_settleSlot_getElem?, List.getElem?_replicate, List.getElem?_map]
  by_cases hi : i < us.length
  · have hi2 : i < results.length := hlen ▸ hi
    have hu : us[i]? = some us[i] := List.getElem?_eq_getElem hi
    have hr : results[i]? = some results[i] := List.getElem?_eq_getElem hi2
    have hc := congrArg (fun l => l[i]?) hcalls
    simp only [List.getElem?_map, List.getElem?_zipWith, hu, hr, Option.map_some',
      Option.some.injEq] at hc
    have hp : (fun e : Nat × List Value => us.indexOf e.1 == i) =
        (fun e : Nat × List Value => e.1 == us[i]) := by
      funext e
      exact indexOf_beq_eq us hnd i us[i] hu e.1
    rw [if_pos hi, hr, hp, hc]
    simp [unitResult_null]
  · have hi2 : ¬ i < results.length := hlen ▸ hi
    rw [if_neg hi, List.getElem?_eq_none (Nat.le_of_not_lt hi2)]
    rfl

theorem parallel_funcs (names : List String) (us : List Nat) (s : State)
    (hlen : us.length = names.length)
    (hrec : ∀ name ∈ names, recognisedByGet name = true) :
    parallel (funcs names) us s =
      { state := run s (List.zipWith Event.get names us), thrown := none } := by
  induction names generalizing us s with
  | nil =>
    cases us with
    | nil => rfl
    | cons u us => cases hlen
  | cons name rest ih =>
    cases us with
    | nil => cases hlen
    | cons u us =>
      have hthrown : (get name u s).thrown = none := by
        by_cases hc : name = "config"
        · subst hc
          rw [get_config_eq]
        · rw [get_of_recognised name u s (hrec name (List.mem_cons_self _ _)) hc]
      simp only [funcs, List.map_cons, parallel, hthrown, List.zipWith_cons_cons, run_cons,
        step]
      exact ih us _ (by simpa using hlen) (fun n hn => hrec n (List.mem_cons_of_mem _ hn))

/-- C15: for a list of names, `Files.get` builds one function per element, in
input order, each calling the single-name `get` with its element, and
`Util.exec.parallel` calls them in that order (for accepted names the batch
is the sequence of the single-name `get` calls). Whenever every unit has
called its callback with `(null, result)`, in whatever order these calls
were recorded and whatever other calls lie between them, the join reports
success with the results in input order. -/
theorem batch_get_joins_in_input_order (names : List String) (unitCallbacks : List Nat)
    (s : State) (hlen : unitCallbacks.length = names.length)
    (hrec : ∀ name ∈ names, recognisedByGet name = true)
    (hnd : unitCallbacks.Nodup) :
    (funcs names).length = names.length ∧
    (∀ (i : Nat) (name : String), names[i]? = some name →
      ∃ f : Nat → State → Outcome,
        (funcs names)[i]? = some f ∧ ∀ callback t, f callback t = get name callback t) ∧
    getArray names unitCallbacks s =
      { state := run s (List.zipWith Event.get names unitCallbacks), thrown := none } ∧
    (∀ (results : List Value) (log : List (Nat × List Value)),
      results.length = unitCallbacks.length →
      unitCallbacks.map (fun u => log.find? (fun e => e.1 == u)) =
        List.zipWith (fun u r => some (u, [Value.null, r])) unitCallbacks results →
      batchReport unitCallbacks log = some (Report.success results)) := by
  refine ⟨by simp [funcs], ?_, parallel_funcs names unitCallbacks s hlen hrec, ?_⟩
  · intro i name hname
    refine ⟨fun callback => get name callback, ?_, fun _ _ => rfl⟩
    simp [funcs, List.getElem?_map, hname]
  · intro results log hres hcalls
    unfold batchReport
    rw [joinLog_of_calls unitCallbacks results log hnd hres hcalls, collect_map_ok]

theorem batch_get_joins_in_input_order_witness :
    [10, 11].length = ["modules", "ext"].length ∧
    (∀ name ∈ ["modules", "ext"], recognisedByGet name = true) ∧
    [10, 11].Nodup ∧
    (run (getArray ["modules", "ext"] [10, 11] State.init).state
      [Event.ajaxSuccess "/json/ext.json" (Value.num 2), Event.job,
       Event.ajaxSuccess "/json/modules.json" (Value.num 1), Event.job]).callbackCalls =
      [(11, [Value.null, Value.num 2]), (10, [Value.null, Value.num 1])] ∧
    batchReport [10, 11]
      (run (getArray ["modules", "ext"] [10, 11] State.init).state
        [Event.ajaxSuccess "/json/ext.json" (Value.num 2), Event.job,
         Event.ajaxSuccess "/json/modules.json" (Value.num 1), Event.job]).callbackCalls =
      some (Report.success [Value.num 1, Value.num 2]) :=
  ⟨by decide, by decide, by decide, by decide,
    (batch_get_joins_in_input_order ["modules", "ext"] [10, 11] State.init
      (by decide) (by decide) (by decide)).2.2.2 [Value.num 1, Value.num 2] _
      (by decide) (by decide)⟩

end Files

namespace Mellow

/-! ## `convertPath` -/

theorem convertPath_of_nonempty (isWin : Bool) (addSlashToEnd : List Nat → List Nat)
    (path : List Nat) (h : path ≠ []) :
    convertPath isWin addSlashToEnd path =
      if (isWin && path != utf16 "/") = true then
        Result.returned (addSlashToEnd
          ((match path[1]? with
            | some v => [v]
            | none => utf16 "undefined") ++ utf16 ":" ++ path.drop 2))
      else Result.returned path := by
  cases path with
  | nil => exact absurd rfl h
  | cons c cs => simp [convertPath, Files.checkArgs]

theorem convertPath_of_volume (addSlashToEnd : List Nat → List Nat) (v : Nat)
    (rest : List Nat) :
    convertPath true addSlashToEnd (utf16 "/" ++ [v] ++ rest) =
      Result.returned (addSlashToEnd ([v] ++ utf16 ":" ++ rest)) := by
  have h1 : utf16 "/" = [47] := by decide
  rw [convertPath_of_nonempty _ _ _ (by rw [h1]; simp)]
  simp [h1]

/-- C20 (as the code has it): `convertPath` returns a non-empty argument as it is
when the platform is not Windows or the path is `/`. On Windows, a path
`'/' + v + rest` with a single UTF-16 code unit `v` becomes
`format.addSlashToEnd(v + ':' + rest)`; so `/c/dir` becomes `c:/dir/` when
the helper turns `c:/dir` into `c:/dir/`. -/
theorem convertPath_spec (isWin : Bool) (addSlashToEnd : List Nat → List Nat)
    (path : List Nat) :
    (path ≠ [] → (isWin = false ∨ path = utf16 "/") →
      convertPath isWin addSlashToEnd path = Result.returned path) ∧
    (∀ (v : Nat) (rest : List Nat), isWin = true → path = utf16 "/" ++ [v] ++ rest →
      convertPath isWin addSlashToEnd path =
        Result.returned (addSlashToEnd ([v] ++ utf16 ":" ++ rest))) ∧
    (addSlashToEnd (utf16 "c:/dir") = utf16 "c:/dir/" →
      convertPath true addSlashToEnd (utf16 "/c/dir") = Result.returned (utf16 "c:/dir/")) := by
  refine ⟨?_, ?_, ?_⟩
  · intro hne h
    rw [convertPath_of_nonempty _ _ _ hne]
    rcases h with h | h
    · simp [h]
    · simp [h]
  · rintro v rest rfl rfl
    exact convertPath_of_volume addSlashToEnd v rest
  · intro h
    have h1 : utf16 "/c/dir" = utf16 "/" ++ [99] ++ utf16 "/dir" := by decide
    have h2 : [99] ++ utf16 ":" ++ utf16 "/dir" = utf16 "c:/dir" := by decide
    rw [h1, convertPath_of_volume, h2, h]

theorem convertPath_spec_witness :
    utf16 "/c/dir" ≠ [] ∧
    utf16 "/c/dir" = utf16 "/" ++ [99] ++ utf16 "/dir" ∧
    convertPath false (fun p => p ++ utf16 "/") (utf16 "/c/dir") =
      Result.returned (utf16 "/c/dir") ∧
    convertPath true (fun p => p ++ utf16 "/") (utf16 "/c/dir") =
      Result.returned (utf16 "c:/dir/") :=
  ⟨by decide, by decide,
    (convertPath_spec false (fun p => p ++ utf16 "/") (utf16 "/c/dir")).1 (by decide)
      (Or.inl rfl),
    (convertPath_spec true (fun p => p ++ utf16 "/") (utf16 "/c/dir")).2.2 (by decide)⟩

/-- C20 (as stated) fails: for the empty path `convertPath` does not return its
argument, on no platform: `Util.checkArgs(arguments, ['path'])` throws
`path coud not be empty!`. And a character outside the basic plane after
the slash (U+1F600, two code units) is split: the colon lands between its
two code units. -/
theorem convertPath_of_empty_throws :
    convertPath false (fun p => p ++ utf16 "/") (utf16 "") =
      Result.threw (Files.Thrown.empty (Files.Value.str "path")) ∧
    convertPath true (fun p => p ++ utf16 "/") (utf16 "") =
      Result.threw (Files.Thrown.empty (Files.Value.str "path")) ∧
    utf16 (String.singleton (Char.ofNat 128512)) = [55357, 56832] ∧
    convertPath true (fun p => p ++ utf16 "/")
        (utf16 "/" ++ utf16 (String.singleton (Char.ofNat 128512)) ++ utf16 "/x") =
      Result.returned ([55357] ++ utf16 ":" ++ [56832] ++ utf16 "/x/") := by
  decide

end Mellow
